import Mathlib

/-!
Verification of the core decision logic of the nifty strangle trader.

The Python source is embedded shallowly:

* money amounts, premiums and prices that the claims treat algebraically are
  modelled as rationals (`ℚ`), real-analytic pricing code as reals (`ℝ`);
* `datetime` values are modelled as explicit day numbers (`ℤ`) and seconds of
  day (`ℚ`), passed explicitly where the source calls `datetime.now()`;
* fallible operations return `Option`;
* the broker and market-data collaborators are passed in as function
  parameters, mirroring the narrow external interfaces of the system.
-/

namespace NiftyStrangle

/-! ## src/models/strangle.py -/

inductive PositionStatus
  | OPEN
  | CLOSED
  | PARTIALLY_CLOSED
deriving DecidableEq, Repr

/-- `Strangle` from src/models/strangle.py.  The expiry string
"YYYY-MM-DD" and the `datetime` entry/exit times are modelled as day
numbers; all premiums are rationals. -/
structure Strangle where
  id : String
  call_strike : ℚ
  put_strike : ℚ
  expiry_day : ℤ
  quantity : ℤ
  entry_call_premium : ℚ
  entry_put_premium : ℚ
  entry_day : ℤ
  entry_spot : ℚ := 0
  exit_call_premium : Option ℚ := none
  exit_put_premium : Option ℚ := none
  exit_day : Option ℤ := none
  exit_reason : Option String := none
  status : PositionStatus := PositionStatus.OPEN
  capital_part : ℤ := 0
deriving DecidableEq, Repr

namespace Strangle

/-- `Strangle.max_profit`: total premium collected times lot size 25
(hard-coded in the source). -/
def max_profit (s : Strangle) : ℚ :=
  (s.entry_call_premium + s.entry_put_premium) * s.quantity * 25

/-- `Strangle.entry_premium`. -/
def entry_premium (s : Strangle) : ℚ :=
  s.entry_call_premium + s.entry_put_premium

/-- `Strangle.days_to_expiry`, with the current day passed explicitly
(the source reads `datetime.now()`). -/
def days_to_expiry (s : Strangle) (now_day : ℤ) : ℤ :=
  s.expiry_day - now_day

/-- `Strangle.calculate_pnl`. -/
def calculate_pnl (s : Strangle) (current_call_premium current_put_premium : ℚ) : ℚ :=
  let entry_total := s.entry_call_premium + s.entry_put_premium
  let current_total := current_call_premium + current_put_premium
  let pnl_per_lot := (entry_total - current_total) * 25
  pnl_per_lot * s.quantity

/-- `Strangle.calculate_pnl_percentage`. -/
def calculate_pnl_percentage (s : Strangle) (c p : ℚ) : ℚ :=
  if s.max_profit = 0 then 0 else s.calculate_pnl c p / s.max_profit

/-- `Strangle.realized_pnl`: `None` unless the position is CLOSED with both
exit premiums recorded. -/
def realized_pnl (s : Strangle) : Option ℚ :=
  if s.status ≠ PositionStatus.CLOSED then none
  else
    match s.exit_call_premium, s.exit_put_premium with
    | some c, some p => some (s.calculate_pnl c p)
    | _, _ => none

/-- `Strangle.close`, with the exit time passed explicitly. -/
def close (s : Strangle) (call_premium put_premium : ℚ) (reason : String)
    (now_day : ℤ) : Strangle :=
  { s with
    exit_call_premium := some call_premium
    exit_put_premium := some put_premium
    exit_day := some now_day
    exit_reason := some reason
    status := PositionStatus.CLOSED }

end Strangle

/-! ## src/core/position_manager.py

The broker collaborator is modelled by a function `pnlOf : Strangle → ℚ`
standing for `broker.get_strangle_pnl`. -/

/-- `PositionManager`: the `positions` dict is modelled as its list of
values in insertion order; `profit_target_pct` and `exit_dte` come from
`STRATEGY_CONFIG` (defaults 0.50 and 7). -/
structure PositionManager where
  positions : List Strangle
  profit_target_pct : ℚ := 1/2
  exit_dte : ℤ := 7

namespace PositionManager

/-- `PositionManager.get_open_positions`. -/
def get_open_positions (pm : PositionManager) : List Strangle :=
  pm.positions.filter (fun s => s.status = PositionStatus.OPEN)

/-- `PositionManager.get_closed_positions`. -/
def get_closed_positions (pm : PositionManager) : List Strangle :=
  pm.positions.filter (fun s => s.status = PositionStatus.CLOSED)

/-- `PositionManager.check_profit_target`: open and
`pnl / max_profit ≥ profit_target_pct`. -/
def check_profit_target (pm : PositionManager) (pnlOf : Strangle → ℚ)
    (s : Strangle) : Bool :=
  if s.status ≠ PositionStatus.OPEN then false
  else pm.profit_target_pct ≤ pnlOf s / s.max_profit

/-- `PositionManager.check_dte_exit`: the condition is evaluated and
reported but, per the source comment, the exit is optional. -/
def check_dte_exit (pm : PositionManager) (now_day : ℤ) (s : Strangle) : Bool :=
  if s.status ≠ PositionStatus.OPEN then false
  else s.days_to_expiry now_day ≤ pm.exit_dte

/-- The loop body of `get_positions_to_exit`: a profit-target hit is
appended with its reason; the DTE condition is evaluated but adds
nothing to the exit list. -/
def exitScan (pm : PositionManager) (pnlOf : Strangle → ℚ) (now_day : ℤ) :
    List Strangle → List (Strangle × String)
  | [] => []
  | s :: rest =>
    if pm.check_profit_target pnlOf s then
      (s, "50% profit target") :: exitScan pm pnlOf now_day rest
    else
      -- DTE exit is optional - evaluated for logging only
      let _dte := pm.check_dte_exit now_day s
      exitScan pm pnlOf now_day rest

/-- `PositionManager.get_positions_to_exit`. -/
def get_positions_to_exit (pm : PositionManager) (pnlOf : Strangle → ℚ)
    (now_day : ℤ) : List (Strangle × String) :=
  exitScan pm pnlOf now_day pm.get_open_positions

/-- `PositionManager.get_total_realized_pnl`: sums `realized_pnl or 0`
over closed positions. -/
def get_total_realized_pnl (pm : PositionManager) : ℚ :=
  (pm.get_closed_positions.map (fun s => (s.realized_pnl).getD 0)).sum

end PositionManager

/-! ## src/core/capital_manager.py

The `allocations` dict `{1..N → strangle_id or None}` is modelled as a
list of `Option String` whose index `i` is part `i + 1`; python dict
iteration order is the fixed insertion order `1, 2, …, N`, which the
list order reproduces.  `datetime.now().date()` is passed explicitly as
`today`.  The constructor reads `total_parts` and `max_entries_per_day`
from configuration; both are model parameters. -/

/-- The two failure branches of `allocate_capital` log distinct reasons
("No capital parts available" / "Max entries reached"); the python
function returns `None` in both cases. -/
inductive AllocResult
  | allocated (part : Nat)
  | noCapital
  | quotaExceeded
deriving DecidableEq, Repr

structure CapitalManager where
  total_capital : ℚ
  total_parts : Nat
  max_entries_per_day : Nat
  allocations : List (Option String)
  entries_today : Nat
  current_date : Option ℤ
deriving DecidableEq, Repr

/-- The free slots of an allocation list, numbered from `i`, in
ascending order (mirrors `get_available_parts`, which filters the dict
in its `1..N` iteration order). -/
def availableParts : List (Option String) → Nat → List Nat
  | [], _ => []
  | none :: rest, i => i :: availableParts rest (i + 1)
  | some _ :: rest, i => availableParts rest (i + 1)

namespace CapitalManager

/-- `CapitalManager.__init__`. -/
def init (total_capital : ℚ) (total_parts max_entries_per_day : Nat) :
    CapitalManager :=
  { total_capital := total_capital
    total_parts := total_parts
    max_entries_per_day := max_entries_per_day
    allocations := List.replicate total_parts none
    entries_today := 0
    current_date := none }

/-- `_check_day_change` composed with `reset_daily_counter`: reset the
day counter whenever the stored date is absent or differs from today. -/
def check_day_change (m : CapitalManager) (today : ℤ) : CapitalManager :=
  if m.current_date = some today then m
  else { m with entries_today := 0, current_date := some today }

/-- `CapitalManager.get_available_parts`. -/
def get_available_parts (m : CapitalManager) : List Nat :=
  availableParts m.allocations 1

/-- `CapitalManager.allocate_capital`: no-capital check first, then the
per-day quota, then claim the first available part. -/
def allocate_capital (m : CapitalManager) (strangle_id : String) (today : ℤ) :
    AllocResult × CapitalManager :=
  let m := m.check_day_change today
  match m.get_available_parts with
  | [] => (AllocResult.noCapital, m)
  | part :: _ =>
    if m.entries_today < m.max_entries_per_day then
      (AllocResult.allocated part,
        { m with
          allocations := m.allocations.set (part - 1) (some strangle_id)
          entries_today := m.entries_today + 1 })
    else (AllocResult.quotaExceeded, m)

/-- `CapitalManager.release_capital`: reverse lookup of the first part
holding the id (dict iteration order `1..N`); warning no-op when the id
is not found. -/
def release_capital (m : CapitalManager) (strangle_id : String) :
    Option Nat × CapitalManager :=
  match m.allocations.findIdx? (fun o => o = some strangle_id) with
  | some i => (some (i + 1), { m with allocations := m.allocations.set i none })
  | none => (none, m)

/-- Number of slots currently holding a given strangle id. -/
def slotCount (m : CapitalManager) (strangle_id : String) : Nat :=
  m.allocations.count (some strangle_id)

end CapitalManager

/-- Fold a same-day sequence of `allocate_capital` calls. -/
def allocRun (m : CapitalManager) (ids : List String) (today : ℤ) :
    CapitalManager :=
  ids.foldl (fun st i => (st.allocate_capital i today).2) m

/-- A step of the capital manager: either an allocation (with the day it
happens on) or a release. -/
inductive CapitalOp
  | alloc (strangle_id : String) (today : ℤ)
  | release (strangle_id : String)

/-- Apply one operation to the capital manager state. -/
def capitalStep (m : CapitalManager) : CapitalOp → CapitalManager
  | CapitalOp.alloc i d => (m.allocate_capital i d).2
  | CapitalOp.release i => (m.release_capital i).2

/-- Run a sequence of operations. -/
def capitalRun (m : CapitalManager) : List CapitalOp → CapitalManager
  | [] => m
  | op :: ops => capitalRun (capitalStep m op) ops

/-- A run is safe when `allocate_capital` is only ever called with an id
that does not currently occupy a slot (the caller creates a fresh id per
position). -/
def SafeRun : CapitalManager → List CapitalOp → Prop
  | _, [] => True
  | m, CapitalOp.alloc i d :: ops =>
    m.slotCount i = 0 ∧ SafeRun (capitalStep m (CapitalOp.alloc i d)) ops
  | m, CapitalOp.release i :: ops =>
    SafeRun (capitalStep m (CapitalOp.release i)) ops

/-! ## src/core/signal_tracker.py

`datetime.now()` is passed explicitly as a `Timestamp` (day number plus
seconds of day).  The JSON persistence of trade counts is external I/O
and is not part of the state machine.  Window boundaries and quotas come
from `TRADING_WINDOWS` (09:30–13:15 and 13:15–15:15, one trade each);
the required signal duration is `STRATEGY_CONFIG` 300 seconds. -/

structure Timestamp where
  day : ℤ
  sec : ℚ
deriving DecidableEq, Repr

/-- `(a - b).total_seconds()`. -/
def totalSeconds (a b : Timestamp) : ℚ :=
  (a.day - b.day) * 86400 + (a.sec - b.sec)

structure SignalState where
  signal_start : Option Timestamp := none
  is_active : Bool := false
deriving DecidableEq, Repr

structure TradingWindowState where
  morning_trades : Nat := 0
  afternoon_trades : Nat := 0
  last_trade_time : Option Timestamp := none
deriving DecidableEq, Repr

inductive TradingWindow
  | morning
  | afternoon
deriving DecidableEq, Repr

/-- Required signal duration, `STRATEGY_CONFIG["signal_duration_seconds"]`. -/
def signalDurationSeconds : ℚ := 300

/-- 09:30 in seconds of day. -/
def morningStartSec : ℚ := 34200

/-- 13:15 in seconds of day. -/
def morningEndSec : ℚ := 47700

/-- 15:15 in seconds of day. -/
def afternoonEndSec : ℚ := 54900

/-- `_get_current_window`: no trading before 09:30, morning window
09:30–13:15, afternoon window 13:15–15:15, none after. -/
def getCurrentWindow (sec : ℚ) : Option TradingWindow :=
  if sec < morningStartSec then none
  else if morningStartSec ≤ sec ∧ sec < morningEndSec then some TradingWindow.morning
  else if morningEndSec ≤ sec ∧ sec < afternoonEndSec then some TradingWindow.afternoon
  else none

/-- `_can_trade_in_window` with the configured per-window quota of 1. -/
def canTradeInWindow (w : TradingWindowState) : TradingWindow → Bool
  | TradingWindow.morning => w.morning_trades < 1
  | TradingWindow.afternoon => w.afternoon_trades < 1

structure SignalTracker where
  signal_state : SignalState
  window_state : TradingWindowState
  last_check_date : Option ℤ
deriving DecidableEq, Repr

/-- The status dict returned by `update_signal` (the fields the claims
are about). -/
structure SignalUpdate where
  signal_active : Bool
  duration_seconds : ℚ
  required_seconds : ℚ
  current_window : Option TradingWindow
  can_trade : Bool
  entry_ready : Bool
  morning_trades : Nat
  afternoon_trades : Nat
deriving DecidableEq, Repr

namespace SignalTracker

/-- `SignalTracker.update_signal`: daily reset first, then window check,
then the signal condition `straddle_price > vwap` with a hard reset on
violation, then duration and entry readiness. -/
def update_signal (t : SignalTracker) (straddle_price vwap : ℚ)
    (now : Timestamp) : SignalUpdate × SignalTracker :=
  -- Reset for new day
  let t :=
    if t.last_check_date = some now.day then t
    else
      { signal_state := {}
        window_state := {}
        last_check_date := some now.day }
  -- Check trading window
  let current_window := getCurrentWindow now.sec
  let can_trade :=
    match current_window with
    | some w => canTradeInWindow t.window_state w
    | none => false
  -- Check signal condition
  let signal_met : Bool := vwap < straddle_price
  let sstate :=
    if signal_met then
      if t.signal_state.is_active then t.signal_state
      else { signal_start := some now, is_active := true }
    else { signal_start := none, is_active := false }
  -- Calculate duration
  let duration_seconds :=
    match sstate.is_active, sstate.signal_start with
    | true, some st => totalSeconds now st
    | _, _ => 0
  let entry_ready :=
    sstate.is_active && decide (signalDurationSeconds ≤ duration_seconds) && can_trade
  (⟨sstate.is_active, duration_seconds, signalDurationSeconds, current_window,
      can_trade, entry_ready, t.window_state.morning_trades,
      t.window_state.afternoon_trades⟩,
    { signal_state := sstate
      window_state := t.window_state
      last_check_date := t.last_check_date })

/-- `SignalTracker.record_trade`: bump the window counter and
unconditionally reset the signal state. -/
def record_trade (t : SignalTracker) (w : TradingWindow) (now : Timestamp) :
    SignalTracker :=
  let ws :=
    match w with
    | TradingWindow.morning =>
      { t.window_state with morning_trades := t.window_state.morning_trades + 1 }
    | TradingWindow.afternoon =>
      { t.window_state with afternoon_trades := t.window_state.afternoon_trades + 1 }
  { t with
    window_state := { ws with last_trade_time := some now }
    signal_state := { signal_start := none, is_active := false } }

end SignalTracker

/-! ## src/greeks/black_scholes.py

Floating point arithmetic is idealised as `ℝ`; `scipy.stats.norm.cdf`
is the standard normal cumulative distribution function, written as a
Gaussian integral. -/

open MeasureTheory in
/-- `scipy.stats.norm.cdf`: the standard normal CDF. -/
noncomputable def normCdf (x : ℝ) : ℝ :=
  (Real.sqrt (2 * Real.pi))⁻¹ * ∫ t in Set.Iic x, Real.exp (-t ^ 2 / 2)

/-- `BlackScholesCalculator.__init__` keeps a risk-free rate and a
dividend yield; `use_futures_mode=True` sets both to zero. -/
structure BlackScholesCalculator where
  r : ℝ
  q : ℝ

/-- The calculator in futures mode (`r = 0`, `q = 0`). -/
def futuresModeBS : BlackScholesCalculator := ⟨0, 0⟩

namespace BlackScholesCalculator

open Classical in
/-- `_calculate_d1_d2`: `(0, 0)` for degenerate `T ≤ 0` or `σ ≤ 0`; the
`except` branch (a `math.log` domain error, i.e. a non-positive
argument `S / K`, or a zero division from `K = 0`, which in `ℝ` also
makes `S / K ≤ 0`) likewise yields `(0, 0)`. -/
noncomputable def d1d2 (bs : BlackScholesCalculator) (S K T sigma : ℝ) : ℝ × ℝ :=
  if T ≤ 0 ∨ sigma ≤ 0 then (0, 0)
  else if S / K ≤ 0 then (0, 0)
  else
    let d1 := (Real.log (S / K) + (bs.r - bs.q + 0.5 * sigma ^ 2) * T) /
      (sigma * Real.sqrt T)
    (d1, d1 - sigma * Real.sqrt T)

open Classical in
/-- `calculate_call_delta`. -/
noncomputable def calculate_call_delta (bs : BlackScholesCalculator)
    (S K T sigma : ℝ) : ℝ :=
  let d1 := (bs.d1d2 S K T sigma).1
  if d1 = 0 then 0
  else Real.exp (-bs.q * T) * normCdf d1

open Classical in
/-- `calculate_put_delta`. -/
noncomputable def calculate_put_delta (bs : BlackScholesCalculator)
    (S K T sigma : ℝ) : ℝ :=
  let d1 := (bs.d1d2 S K T sigma).1
  if d1 = 0 then 0
  else Real.exp (-bs.q * T) * (normCdf d1 - 1)

open Classical in
/-- `calculate_call_price`. -/
noncomputable def calculate_call_price (bs : BlackScholesCalculator)
    (S K T sigma : ℝ) : ℝ :=
  let d := bs.d1d2 S K T sigma
  if d.1 = 0 then max 0 (S - K)
  else
    max 0 (S * Real.exp (-bs.q * T) * normCdf d.1 -
      K * Real.exp (-bs.r * T) * normCdf d.2)

open Classical in
/-- `calculate_put_price`. -/
noncomputable def calculate_put_price (bs : BlackScholesCalculator)
    (S K T sigma : ℝ) : ℝ :=
  let d := bs.d1d2 S K T sigma
  if d.1 = 0 then max 0 (K - S)
  else
    max 0 (K * Real.exp (-bs.r * T) * normCdf (-d.2) -
      S * Real.exp (-bs.q * T) * normCdf (-d.1))

end BlackScholesCalculator

open Classical in
/-- Models `scipy.optimize.brentq f a b`: the call raises `ValueError`
(here `none`) exactly when `f a` and `f b` have the same strict sign,
i.e. `f a * f b > 0`; otherwise the iteration returns a point of the
bracket `[a, b]`, a root of `f` when one exists. -/
noncomputable def brentq (f : ℝ → ℝ) (a b : ℝ) : Option ℝ :=
  if 0 < f a * f b then none
  else if h : ∃ x ∈ Set.Icc a b, f x = 0 then some h.choose
  else some a

namespace BlackScholesCalculator

open Classical in
/-- `calculate_implied_volatility`: guard non-positive price or expiry,
guard a market price below intrinsic value, then bracketed root finding
on `[0.0001, 5.0]`; the `try/except` around `brentq` turns its
`ValueError` into `None`, so the function is total and never raises. -/
noncomputable def calculate_implied_volatility (bs : BlackScholesCalculator)
    (S K T market_price : ℝ) (is_call : Bool) : Option ℝ :=
  if market_price ≤ 0 ∨ T ≤ 0 then none
  else
    let intrinsic := if is_call then max 0 (S - K) else max 0 (K - S)
    if market_price < intrinsic then none
    else
      brentq
        (fun sigma =>
          (if is_call then bs.calculate_call_price S K T sigma
           else bs.calculate_put_price S K T sigma) - market_price)
        0.0001 5.0

end BlackScholesCalculator

/-! ## src/greeks/delta_calculator.py -/

open Classical in
/-- Python `round`: round half to even (banker's rounding). -/
noncomputable def pyRound (x : ℝ) : ℤ :=
  let f := ⌊x⌋
  let frac := x - f
  if frac < 1 / 2 then f
  else if 1 / 2 < frac then f + 1
  else if Even f then f else f + 1

/-- `get_atm_strike` / `_round_to_strike`: round to the nearest strike
interval. -/
noncomputable def get_atm_strike (spot interval : ℝ) : ℝ :=
  pyRound (spot / interval) * interval

/-- `NIFTY_CONFIG["strike_interval"]`. -/
def strikeInterval : ℝ := 50

open Classical in
/-- The candidate scan shared by `find_call_strike_for_delta` and
`find_put_strike_for_delta`: `f` computes the delta of a strike, `key`
is the delta for calls and its absolute value for puts; a candidate with
`key > 0.20` is skipped, otherwise the accumulator keeps the first
candidate whose `|key - target|` is strictly below the running minimum
(`min_diff` starts at `float('inf')`, so the first candidate always
enters). -/
noncomputable def deltaScan (f : ℝ → ℝ) (key : ℝ → ℝ) (target : ℝ) :
    List ℝ → Option (ℝ × ℝ × ℝ) → Option (ℝ × ℝ × ℝ)
  | [], acc => acc
  | s :: rest, acc =>
    let d := f s
    if 0.20 < key d then deltaScan f key target rest acc
    else
      let diff := |key d - target|
      match acc with
      | none => deltaScan f key target rest (some (s, d, diff))
      | some best =>
        if diff < best.2.2 then deltaScan f key target rest (some (s, d, diff))
        else deltaScan f key target rest (some best)

open Classical in
/-- `DeltaStrikeSelector.find_call_strike_for_delta` (the available
strike list is passed explicitly, as callers do). -/
noncomputable def find_call_strike_for_delta (bs : BlackScholesCalculator)
    (spot_price target_delta : ℝ) (expiry_days : ℤ) (iv : ℝ)
    (available_strikes : List ℝ) : ℝ × ℝ :=
  let T := (expiry_days : ℝ) / 365
  let atm := get_atm_strike spot_price strikeInterval
  let otm_strikes := available_strikes.filter (fun s => decide (atm < s))
  match deltaScan (fun s => bs.calculate_call_delta spot_price s T iv) id
      target_delta otm_strikes none with
  | some best => (best.1, best.2.1)
  | none =>
    -- Fallback: use furthest OTM strike
    let best_strike :=
      match otm_strikes with
      | [] => atm + strikeInterval
      | h :: rest => rest.foldl max h
    (best_strike, bs.calculate_call_delta spot_price best_strike T iv)

open Classical in
/-- `DeltaStrikeSelector.find_put_strike_for_delta`. -/
noncomputable def find_put_strike_for_delta (bs : BlackScholesCalculator)
    (spot_price target_delta : ℝ) (expiry_days : ℤ) (iv : ℝ)
    (available_strikes : List ℝ) : ℝ × ℝ :=
  let T := (expiry_days : ℝ) / 365
  let atm := get_atm_strike spot_price strikeInterval
  let otm_strikes := available_strikes.filter (fun s => decide (s < atm))
  match deltaScan (fun s => bs.calculate_put_delta spot_price s T iv) abs
      target_delta otm_strikes none with
  | some best => (best.1, best.2.1)
  | none =>
    -- Fallback: use furthest OTM strike
    let best_strike :=
      match otm_strikes with
      | [] => atm - strikeInterval
      | h :: rest => rest.foldl min h
    (best_strike, bs.calculate_put_delta spot_price best_strike T iv)

/-- A quote in the option chain (`ltp` and `iv` are the fields the
selection reads). -/
structure OptQuote where
  ltp : ℝ
  iv : ℝ

/-- The per-strike entry `{"CE": Option, "PE": Option}` of the chain. -/
structure StrikeQuotes where
  ce : Option OptQuote := none
  pe : Option OptQuote := none

open Classical in
/-- Dict lookup `options.get(strike)` (chain keys are unique). -/
noncomputable def lookupStrike (options : List (ℝ × StrikeQuotes)) (k : ℝ) :
    Option StrikeQuotes :=
  (options.find? (fun p => decide (p.1 = k))).map (fun p => p.2)

open Classical in
/-- The call half of the chain scan in `find_strikes_from_option_chain`:
OTM calls (`strike > synthetic_futures`) with a positive strike-specific
IV, delta band `≤ 0.20`, minimising `|delta - target|`.  (The python
`continue` on a high call delta also skips that strike's put block, but
that block requires `strike < synthetic_futures` and so could never fire
for such a strike.) -/
noncomputable def chainScanCE (bs : BlackScholesCalculator)
    (synth T target : ℝ) :
    List (ℝ × StrikeQuotes) → Option (ℝ × ℝ × ℝ) → Option (ℝ × ℝ × ℝ)
  | [], acc => acc
  | (strike, sq) :: rest, acc =>
    match sq.ce with
    | none => chainScanCE bs synth T target rest acc
    | some ce =>
      if synth < strike ∧ 0 < ce.iv then
        let d := bs.calculate_call_delta synth strike T ce.iv
        if 0.20 < d then chainScanCE bs synth T target rest acc
        else
          let diff := |d - target|
          match acc with
          | none => chainScanCE bs synth T target rest (some (strike, d, diff))
          | some best =>
            if diff < best.2.2 then
              chainScanCE bs synth T target rest (some (strike, d, diff))
            else chainScanCE bs synth T target rest (some best)
      else chainScanCE bs synth T target rest acc

open Classical in
/-- The put half of the chain scan: OTM puts
(`strike < synthetic_futures`) with a positive strike-specific IV, band
on `|delta|`. -/
noncomputable def chainScanPE (bs : BlackScholesCalculator)
    (synth T target : ℝ) :
    List (ℝ × StrikeQuotes) → Option (ℝ × ℝ × ℝ) → Option (ℝ × ℝ × ℝ)
  | [], acc => acc
  | (strike, sq) :: rest, acc =>
    match sq.pe with
    | none => chainScanPE bs synth T target rest acc
    | some pe =>
      if strike < synth ∧ 0 < pe.iv then
        let d := bs.calculate_put_delta synth strike T pe.iv
        if 0.20 < |d| then chainScanPE bs synth T target rest acc
        else
          let diff := |(|d|) - target|
          match acc with
          | none => chainScanPE bs synth T target rest (some (strike, d, diff))
          | some best =>
            if diff < best.2.2 then
              chainScanPE bs synth T target rest (some (strike, d, diff))
            else chainScanPE bs synth T target rest (some best)
      else chainScanPE bs synth T target rest acc

open Classical in
/-- `DeltaStrikeSelector.find_strikes_from_option_chain` after the
expiry-key resolution (external data plumbing): compute the synthetic
futures from the ATM quotes (falling back to spot when they are
missing), scan the chain for both sides, and return `(0, 0)` — the
failure sentinel of the source — when either side found no candidate. -/
noncomputable def find_strikes_from_option_chain (bs : BlackScholesCalculator)
    (spot : ℝ) (options : List (ℝ × StrikeQuotes)) (expiry_days : ℤ)
    (target_delta : ℝ) : ℝ × ℝ :=
  if spot ≤ 0 then (0, 0)
  else if options = [] then (0, 0)
  else
    let atm_strike := get_atm_strike spot strikeInterval
    let synthetic_futures :=
      match lookupStrike options atm_strike with
      | none => spot
      | some sq =>
        match sq.ce, sq.pe with
        | some atm_ce, some atm_pe => atm_strike + atm_ce.ltp - atm_pe.ltp
        | _, _ => spot
    let T := (expiry_days : ℝ) / 365
    match chainScanCE bs synthetic_futures T target_delta options none,
        chainScanPE bs synthetic_futures T target_delta options none with
    | some bestCall, some bestPut => (bestCall.1, bestPut.1)
    | _, _ => (0, 0)

/-! ## Concrete fixtures used in witnesses -/

/-- The worked position of the spec's testable properties: entry
premiums 50 and 40, one lot. -/
def sampleStrangle : Strangle :=
  { id := "S1"
    call_strike := 25300
    put_strike := 24700
    expiry_day := 14
    quantity := 1
    entry_call_premium := 50
    entry_put_premium := 40
    entry_day := 0 }

/-- An open position that is close to expiry but far from the profit
target. -/
def sampleStrangleNearExpiry : Strangle :=
  { sampleStrangle with id := "S2", expiry_day := 3 }

/-- A broker pnl oracle: 1200 for the first sample (beyond its 1125
target), 10 for everything else. -/
def samplePnl : Strangle → ℚ :=
  fun s => if s.id = "S1" then 1200 else 10

/-- A manager tracking both samples. -/
def samplePM : PositionManager :=
  { positions := [sampleStrangle, sampleStrangleNearExpiry] }

/-- A tracker mid-morning with an active signal that started 300 seconds
ago today. -/
def sampleTracker : SignalTracker :=
  { signal_state := { signal_start := some ⟨0, 34000⟩, is_active := true }
    window_state := {}
    last_check_date := some 0 }

/-- The capital-manager state reached after same-day allocations of
`ids` into a fresh `n`-part pool: the first `ids.length` parts hold the
ids in order, the rest are free, and the day counter equals the number
of allocations. -/
def allocState (cap : ℚ) (n maxd : Nat) (today : ℤ) (ids : List String) :
    CapitalManager :=
  { total_capital := cap
    total_parts := n
    max_entries_per_day := maxd
    allocations := ids.map some ++ List.replicate (n - ids.length) none
    entries_today := ids.length
    current_date := some today }

end NiftyStrangle

namespace NiftyStrangle

/-! # Theorems -/

/-! ## C1: P&L and max profit of a strangle -/

/-- **C1.** For every `Strangle`, `calculate_pnl` is
`(entry_call + entry_put − current_call − current_put) × quantity × 25`
and `max_profit` is `(entry_call + entry_put) × quantity × 25`, both
pure functions of the entry premiums and quantity; the position with
entry premiums 50 and 40 and quantity 1, closed at 20 and 15, realizes
`(90 − 35) × 25`, a positive gain. -/
theorem C1_pnl_formula :
    (∀ (s : Strangle) (c p : ℚ),
        s.calculate_pnl c p =
          (s.entry_call_premium + s.entry_put_premium - c - p) * s.quantity * 25) ∧
    (∀ s : Strangle,
        s.max_profit =
          (s.entry_call_premium + s.entry_put_premium) * s.quantity * 25) ∧
    (sampleStrangle.close 20 15 "50% profit target" 7).realized_pnl =
      some ((90 - 35) * 25) ∧
    (0 : ℚ) < (90 - 35) * 25 := by
  refine ⟨fun s c p => ?_, fun s => rfl, ?_, by norm_num⟩
  · simp only [Strangle.calculate_pnl]
    ring
  · simp [Strangle.close, Strangle.realized_pnl, Strangle.calculate_pnl,
      sampleStrangle]
    norm_num

/-! ## C10: realized P&L is only reported after a completed close -/

/-- **C10.** `realized_pnl` is `none` unless the status is CLOSED and
both exit premiums are recorded, and after
`close(callPremium, putPremium, reason)` it equals
`calculate_pnl(callPremium, putPremium)`. -/
theorem C10_realized_pnl_gating :
    (∀ s : Strangle, s.status ≠ PositionStatus.CLOSED → s.realized_pnl = none) ∧
    (∀ s : Strangle,
        s.exit_call_premium = none ∨ s.exit_put_premium = none →
        s.realized_pnl = none) ∧
    (∀ (s : Strangle) (c p : ℚ) (reason : String) (d : ℤ),
        (s.close c p reason d).realized_pnl = some (s.calculate_pnl c p)) := by
  refine ⟨fun s h => ?_, fun s h => ?_, fun s c p reason d => ?_⟩
  · simp [Strangle.realized_pnl, h]
  · rcases h with h | h <;>
      · simp only [Strangle.realized_pnl, h]
        split <;> simp_all
  · simp [Strangle.close, Strangle.realized_pnl, Strangle.calculate_pnl]

/-- Witness for C10 at concrete positions. -/
theorem C10_realized_pnl_gating_witness :
    sampleStrangle.realized_pnl = none ∧
    ({ sampleStrangle with status := PositionStatus.CLOSED } : Strangle).realized_pnl = none ∧
    (sampleStrangle.close 20 15 "50% profit target" 7).realized_pnl =
      some (sampleStrangle.calculate_pnl 20 15) :=
  ⟨C10_realized_pnl_gating.1 sampleStrangle (by decide),
    C10_realized_pnl_gating.2.1 _ (Or.inl rfl),
    C10_realized_pnl_gating.2.2 sampleStrangle 20 15 "50% profit target" 7⟩

/-! ## C3: a single violating tick hard-resets the signal -/

/-- **C3.** On a same-day tick with `straddle_price ≤ vwap`,
`update_signal` leaves the signal inactive with `signal_start` cleared
and reports `duration_seconds = 0`, regardless of the prior state. -/
theorem C3_hard_reset (t : SignalTracker) (straddle_price vwap : ℚ)
    (now : Timestamp) (hday : t.last_check_date = some now.day)
    (hviol : straddle_price ≤ vwap) :
    (t.update_signal straddle_price vwap now).2.signal_state.is_active = false ∧
    (t.update_signal straddle_price vwap now).2.signal_state.signal_start = none ∧
    (t.update_signal straddle_price vwap now).1.duration_seconds = 0 := by
  have hmet : ¬ vwap < straddle_price := not_lt.2 hviol
  simp [SignalTracker.update_signal, hday, hmet]

/-- Witness for C3: the sample tracker has held its signal for 300
seconds, yet one tick at 34300 s with straddle 3 ≤ vwap 5 resets it. -/
theorem C3_hard_reset_witness :
    (sampleTracker.update_signal 3 5 ⟨0, 34300⟩).2.signal_state.is_active = false ∧
    (sampleTracker.update_signal 3 5 ⟨0, 34300⟩).2.signal_state.signal_start = none ∧
    (sampleTracker.update_signal 3 5 ⟨0, 34300⟩).1.duration_seconds = 0 :=
  C3_hard_reset sampleTracker 3 5 ⟨0, 34300⟩ rfl (by norm_num)

/-! ## C4: only the profit target triggers an exit -/

theorem check_profit_target_eq_true (pm : PositionManager)
    (pnlOf : Strangle → ℚ) (s : Strangle) :
    pm.check_profit_target pnlOf s = true ↔
      s.status = PositionStatus.OPEN ∧
        pm.profit_target_pct ≤ pnlOf s / s.max_profit := by
  by_cases h : s.status = PositionStatus.OPEN <;>
    simp [PositionManager.check_profit_target, h]

theorem exitScan_mem (pm : PositionManager) (pnlOf : Strangle → ℚ)
    (now_day : ℤ) (l : List Strangle) (s : Strangle) (r : String) :
    (s, r) ∈ pm.exitScan pnlOf now_day l ↔
      s ∈ l ∧ pm.check_profit_target pnlOf s = true ∧
        r = "50% profit target" := by
  induction l with
  | nil => simp [PositionManager.exitScan]
  | cons a t ih =>
    by_cases h : pm.check_profit_target pnlOf a = true
    · simp only [PositionManager.exitScan, if_pos h, List.mem_cons,
        Prod.mk.injEq, ih]
      constructor
      · rintro (⟨rfl, rfl⟩ | ⟨hs, hc, hr⟩)
        · exact ⟨Or.inl rfl, h, rfl⟩
        · exact ⟨Or.inr hs, hc, hr⟩
      · rintro ⟨rfl | hs, hc, rfl⟩
        · exact Or.inl ⟨rfl, rfl⟩
        · exact Or.inr ⟨hs, hc, rfl⟩
    · simp only [PositionManager.exitScan, if_neg h, List.mem_cons, ih]
      constructor
      · rintro ⟨hs, hc, hr⟩
        exact ⟨Or.inr hs, hc, hr⟩
      · rintro ⟨rfl | hs, hc, rfl⟩
        · exact absurd hc h
        · exact ⟨hs, hc, rfl⟩

/-- **C4.** `get_positions_to_exit` returns exactly the open positions
whose broker-reported P&L is at least `profit_target_pct × max_profit`,
each tagged "50% profit target"; a position meeting only the
days-to-expiry condition (`days_to_expiry ≤ exit_dte`) while short of
the profit target is never in the exit list. -/
theorem C4_only_profit_target_exits (pm : PositionManager)
    (pnlOf : Strangle → ℚ) (now_day : ℤ)
    (hpos : ∀ s ∈ pm.positions, 0 < s.max_profit) :
    (∀ (s : Strangle) (r : String),
        (s, r) ∈ pm.get_positions_to_exit pnlOf now_day ↔
          s ∈ pm.positions ∧ s.status = PositionStatus.OPEN ∧
            pm.profit_target_pct * s.max_profit ≤ pnlOf s ∧
            r = "50% profit target") ∧
    (∀ s ∈ pm.positions, s.status = PositionStatus.OPEN →
        s.days_to_expiry now_day ≤ pm.exit_dte →
        pnlOf s < pm.profit_target_pct * s.max_profit →
        ∀ r, (s, r) ∉ pm.get_positions_to_exit pnlOf now_day) := by
  have hmain : ∀ (s : Strangle) (r : String),
      (s, r) ∈ pm.get_positions_to_exit pnlOf now_day ↔
        s ∈ pm.positions ∧ s.status = PositionStatus.OPEN ∧
          pm.profit_target_pct * s.max_profit ≤ pnlOf s ∧
          r = "50% profit target" := by
    intro s r
    rw [PositionManager.get_positions_to_exit, exitScan_mem,
      check_profit_target_eq_true]
    constructor
    · rintro ⟨hs, ⟨hopen, htarget⟩, hr⟩
      have hsl : s ∈ pm.positions := by
        simpa [PositionManager.get_open_positions] using
          (List.mem_filter.1 hs).1
      exact ⟨hsl, hopen,
        (le_div_iff₀ (hpos s hsl)).1 htarget, hr⟩
    · rintro ⟨hs, hopen, htarget, hr⟩
      refine ⟨List.mem_filter.2 ⟨hs, by simp [hopen]⟩, ⟨hopen, ?_⟩, hr⟩
      exact (le_div_iff₀ (hpos s hs)).2 htarget
  refine ⟨hmain, fun s hs _ _ hlt r hmem => ?_⟩
  rcases (hmain s r).1 hmem with ⟨_, _, htarget, _⟩
  exact absurd htarget (not_le.2 hlt)

/-- Witness for C4: in the sample portfolio the profit-target position
is the only exit; the near-expiry position (3 DTE ≤ 7 but P&L 10 below
target 1125) is excluded. -/
theorem C4_only_profit_target_exits_witness :
    ((sampleStrangle, "50% profit target") ∈
        samplePM.get_positions_to_exit samplePnl 0) ∧
    (∀ r, (sampleStrangleNearExpiry, r) ∉
        samplePM.get_positions_to_exit samplePnl 0) := by
  have hpos : ∀ s ∈ samplePM.positions, 0 < s.max_profit := by
    intro s hs
    simp only [samplePM, List.mem_cons, List.not_mem_nil, or_false] at hs
    rcases hs with rfl | rfl <;>
      norm_num [Strangle.max_profit, sampleStrangle, sampleStrangleNearExpiry]
  have h := C4_only_profit_target_exits samplePM samplePnl 0 hpos
  refine ⟨(h.1 sampleStrangle "50% profit target").2
    ⟨by simp [samplePM], rfl, ?_, rfl⟩, fun r => ?_⟩
  · norm_num [samplePM, samplePnl, sampleStrangle, Strangle.max_profit]
  · exact h.2 sampleStrangleNearExpiry (by simp [samplePM]) rfl
      (by norm_num [Strangle.days_to_expiry, sampleStrangleNearExpiry,
        sampleStrangle, samplePM])
      (by norm_num [samplePM, samplePnl, sampleStrangleNearExpiry,
        sampleStrangle, Strangle.max_profit,
        show ("S2" : String) ≠ "S1" by decide]) r

/-! ## Capital manager lemmas (for C2 and C9) -/

theorem availableParts_replicate (m i : Nat) :
    availableParts (List.replicate m (none : Option String)) i =
      List.range' i m := by
  induction m generalizing i with
  | zero => simp [availableParts]
  | succ k ih => rw [List.replicate_succ, List.range'_succ]; simp [availableParts, ih]

theorem availableParts_map_some (l : List String)
    (rest : List (Option String)) (i : Nat) :
    availableParts (l.map some ++ rest) i =
      availableParts rest (i + l.length) := by
  induction l generalizing i with
  | nil => simp
  | cons a t ih =>
    have h1 : availableParts ((a :: t).map some ++ rest) i =
        availableParts (t.map some ++ rest) (i + 1) := rfl
    rw [h1, ih]
    have h2 : i + 1 + t.length = i + (a :: t).length := by
      simp only [List.length_cons]; omega
    rw [h2]

theorem set_map_some_append (l : List String) (rest : List (Option String))
    (v : Option String) :
    (l.map some ++ rest).set l.length v = l.map some ++ rest.set 0 v := by
  induction l with
  | nil => simp
  | cons a t ih => simp [ih]

theorem check_day_change_allocState (cap : ℚ) (n maxd : Nat) (today : ℤ)
    (ids : List String) :
    (allocState cap n maxd today ids).check_day_change today =
      allocState cap n maxd today ids := by
  simp [CapitalManager.check_day_change, allocState]

theorem check_day_change_init (cap : ℚ) (n maxd : Nat) (today : ℤ) :
    (CapitalManager.init cap n maxd).check_day_change today =
      allocState cap n maxd today [] := by
  simp [CapitalManager.check_day_change, CapitalManager.init, allocState]

theorem allocate_of_check_day_change (m : CapitalManager) (cap : ℚ)
    (n maxd : Nat) (today : ℤ) (l : List String) (strangle_id : String)
    (h : m.check_day_change today = allocState cap n maxd today l)
    (hk : l.length < n) (hq : l.length < maxd) :
    m.allocate_capital strangle_id today =
      (AllocResult.allocated (l.length + 1),
        allocState cap n maxd today (l ++ [strangle_id])) := by
  have havail : (allocState cap n maxd today l).get_available_parts =
      (1 + l.length) :: List.range' (1 + l.length + 1) (n - l.length - 1) := by
    rw [CapitalManager.get_available_parts]
    show availableParts (l.map some ++ List.replicate (n - l.length) none) 1 = _
    rw [availableParts_map_some, availableParts_replicate]
    have hrepr : n - l.length = (n - l.length - 1) + 1 := by omega
    conv_lhs => rw [hrepr]
    rw [List.range'_succ]
  rw [CapitalManager.allocate_capital, h, havail]
  simp only [allocState]
  rw [if_pos hq]
  have hset : (l.map some ++ List.replicate (n - l.length) none).set
      (1 + l.length - 1) (some strangle_id) =
      (l ++ [strangle_id]).map some ++
        List.replicate (n - (l ++ [strangle_id]).length) none := by
    have h1 : 1 + l.length - 1 = l.length := by omega
    have hrepr : n - l.length = (n - l.length - 1) + 1 := by omega
    rw [h1, set_map_some_append, hrepr, List.replicate_succ]
    simp only [List.set_cons_zero, List.map_append, List.map_cons,
      List.map_nil, List.append_assoc, List.singleton_append,
      List.length_append, List.length_cons, List.length_nil]
    congr 3
  rw [hset]
  simp only [allocState, List.length_append, List.length_cons, List.length_nil]
  rw [Nat.add_comm 1 l.length]

theorem allocRun_append (m : CapitalManager) (ids1 ids2 : List String)
    (today : ℤ) :
    allocRun m (ids1 ++ ids2) today =
      allocRun (allocRun m ids1 today) ids2 today := by
  simp [allocRun, List.foldl_append]

theorem allocRun_eq_allocState (cap : ℚ) (n maxd : Nat) (today : ℤ)
    (ids : List String) (hne : ids ≠ []) (hn : ids.length ≤ n)
    (hq : ids.length ≤ maxd) :
    allocRun (CapitalManager.init cap n maxd) ids today =
      allocState cap n maxd today ids := by
  induction ids using List.reverseRecOn with
  | nil => cases hne rfl
  | append_singleton l a ih =>
    rw [allocRun_append]
    have hn1 : l.length < n := by
      have := hn; simp only [List.length_append, List.length_cons,
        List.length_nil] at this; omega
    have hq1 : l.length < maxd := by
      have := hq; simp only [List.length_append, List.length_cons,
        List.length_nil] at this; omega
    by_cases hl : l = []
    · subst hl
      have hstep := allocate_of_check_day_change
        (CapitalManager.init cap n maxd) cap n maxd today [] a
        (check_day_change_init cap n maxd today) (by simpa using hn1)
        (by simpa using hq1)
      simp [allocRun, hstep]
    · have hrun := ih hl (le_of_lt hn1) (le_of_lt hq1)
      rw [hrun]
      have hstep := allocate_of_check_day_change
        (allocState cap n maxd today l) cap n maxd today l a
        (check_day_change_allocState cap n maxd today l) hn1 hq1
      simp [allocRun, hstep]

theorem findIdx_map_some (l : List String) (j : Nat) (hj : j < l.length)
    (hnd : l.Nodup) (i : Nat) :
    (l.map some).findIdx? (fun o => o = some (l.get ⟨j, hj⟩)) i =
      some (i + j) := by
  induction l generalizing j i with
  | nil => exact absurd hj (by simp)
  | cons a t ih =>
    rcases j with _ | k
    · simp [List.findIdx?_cons, List.get]
    · have hmem : t.get ⟨k, by simpa using hj⟩ ∈ t := List.get_mem t _ _
      have hne : a ≠ t.get ⟨k, by simpa using hj⟩ := by
        intro heq
        exact (List.nodup_cons.1 hnd).1 (heq ▸ hmem)
      have hget : (a :: t).get ⟨k + 1, hj⟩ = t.get ⟨k, by simpa using hj⟩ := rfl
      rw [List.map_cons, List.findIdx?_cons, hget]
      rw [if_neg (by simpa using hne)]
      rw [ih k (by simpa using hj) (List.nodup_cons.1 hnd).2 (i + 1)]
      congr 1
      omega

theorem availableParts_set_none (l : List String) (j i : Nat)
    (hj : j < l.length) :
    availableParts ((l.map some).set j none) i = [i + j] := by
  induction l generalizing j i with
  | nil => exact absurd hj (by simp)
  | cons a t ih =>
    rcases j with _ | k
    · have h0 : ((a :: t).map some).set 0 none = none :: t.map some := rfl
      rw [h0]
      show i :: availableParts (t.map some) (i + 1) = [i + 0]
      have := availableParts_map_some t [] (i + 1)
      simp only [List.append_nil] at this
      rw [this]
      simp [availableParts]
    · have h0 : ((a :: t).map some).set (k + 1) none =
          some a :: (t.map some).set k none := rfl
      rw [h0]
      show availableParts ((t.map some).set k none) (i + 1) = [i + (k + 1)]
      rw [ih k (i + 1) (by simpa using hj)]
      have harith : i + 1 + k = i + (k + 1) := by omega
      rw [harith]

/-! ## C2: a full allocation, exhaustion and reuse cycle -/

/-- **C2.** From an empty `n`-part pool (with the daily quota not
binding, `n < max_entries_per_day`), `n + 1` same-day `allocate_capital`
calls with distinct ids: each of the first `n` claims the
lowest-numbered free part (`1, 2, …, n` in order) and increments the
day counter; the `(n+1)`th fails on the no-capital branch with the state
unchanged; and after `release_capital` of any allocated id, the next
`allocate_capital` succeeds and reuses exactly the freed part. -/
theorem C2_allocation_cycle (cap : ℚ) (n maxd : Nat) (today : ℤ)
    (ids : List String) (newid : String) (hn : 0 < n) (hmax : n < maxd)
    (hlen : ids.length = n + 1) (hnd : ids.Nodup) :
    (∀ k (hk : k < n),
        (allocRun (CapitalManager.init cap n maxd) (ids.take k)
              today).allocate_capital (ids.get ⟨k, by omega⟩) today =
          (AllocResult.allocated (k + 1),
            allocRun (CapitalManager.init cap n maxd) (ids.take (k + 1)) today) ∧
        (allocRun (CapitalManager.init cap n maxd) (ids.take (k + 1))
            today).entries_today = k + 1) ∧
    (allocRun (CapitalManager.init cap n maxd) (ids.take n)
          today).allocate_capital (ids.get ⟨n, by omega⟩) today =
      (AllocResult.noCapital,
        allocRun (CapitalManager.init cap n maxd) (ids.take n) today) ∧
    (∀ j (hj : j < n),
        ((allocRun (CapitalManager.init cap n maxd) (ids.take n)
              today).release_capital (ids.get ⟨j, by omega⟩)).1 = some (j + 1) ∧
        (((allocRun (CapitalManager.init cap n maxd) (ids.take n)
                today).release_capital (ids.get ⟨j, by omega⟩)).2.allocate_capital
            newid today).1 = AllocResult.allocated (j + 1)) := by
  have htake : ∀ k, k ≤ n → (ids.take k).length = k := by
    intro k hk
    rw [List.length_take]
    omega
  have htakeSucc : ∀ k (hk : k < n),
      ids.take (k + 1) = ids.take k ++ [ids.get ⟨k, by omega⟩] := by
    intro k hk
    rw [List.take_succ]
    congr 1
    have hklen : k < ids.length := by omega
    rw [List.getElem?_eq_getElem hklen]
    rfl
  have hrun : ∀ k, 0 < k → k ≤ n →
      allocRun (CapitalManager.init cap n maxd) (ids.take k) today =
        allocState cap n maxd today (ids.take k) := by
    intro k hk0 hk
    refine allocRun_eq_allocState cap n maxd today _ ?_ ?_ ?_
    · intro hnil
      have := htake k hk
      rw [hnil] at this
      simp at this
      omega
    · rw [htake k hk]; exact hk
    · rw [htake k hk]; omega
  have hstep : ∀ k (hk : k < n),
      (allocRun (CapitalManager.init cap n maxd) (ids.take k)
            today).allocate_capital (ids.get ⟨k, by omega⟩) today =
        (AllocResult.allocated (k + 1),
          allocState cap n maxd today (ids.take (k + 1))) := by
    intro k hk
    have hcheck : (allocRun (CapitalManager.init cap n maxd) (ids.take k)
        today).check_day_change today = allocState cap n maxd today (ids.take k) := by
      rcases Nat.eq_zero_or_pos k with rfl | hkpos
      · simp only [List.take_zero]
        show (CapitalManager.init cap n maxd).check_day_change today = _
        exact check_day_change_init cap n maxd today
      · rw [hrun k hkpos (le_of_lt hk)]
        exact check_day_change_allocState cap n maxd today (ids.take k)
    have := allocate_of_check_day_change _ cap n maxd today (ids.take k)
      (ids.get ⟨k, by omega⟩) hcheck
      (by rw [htake k (le_of_lt hk)]; exact hk)
      (by rw [htake k (le_of_lt hk)]; omega)
    rw [this, htake k (le_of_lt hk), htakeSucc k hk]
  refine ⟨fun k hk => ⟨?_, ?_⟩, ?_, fun j hj => ?_⟩
  · rw [hstep k hk, hrun (k + 1) (by omega) (by omega)]
  · rw [hrun (k + 1) (by omega) (by omega), allocState]
    exact htake (k + 1) (by omega)
  · rw [hrun n hn le_rfl]
    rw [CapitalManager.allocate_capital, check_day_change_allocState]
    have havail : (allocState cap n maxd today (ids.take n)).get_available_parts = [] := by
      rw [CapitalManager.get_available_parts]
      show availableParts ((ids.take n).map some ++
        List.replicate (n - (ids.take n).length) none) 1 = _
      rw [availableParts_map_some, htake n le_rfl]
      simp [availableParts]
    rw [havail]
  · have hjlen : j < (ids.take n).length := by rw [htake n le_rfl]; omega
    have hgetTake : (ids.take n).get ⟨j, hjlen⟩ = ids.get ⟨j, by omega⟩ := by
      simp [List.get_eq_getElem]
    have hrel : (allocState cap n maxd today (ids.take n)).release_capital
        (ids.get ⟨j, by omega⟩) =
        (some (j + 1),
          { allocState cap n maxd today (ids.take n) with
            allocations := ((ids.take n).map some).set j none }) := by
      rw [CapitalManager.release_capital]
      have hallocs : (allocState cap n maxd today (ids.take n)).allocations =
          (ids.take n).map some := by
        simp [allocState, htake n le_rfl]
      rw [hallocs]
      have hnd2 : (ids.take n).Nodup := hnd.sublist (List.take_sublist n ids)
      rw [← hgetTake, findIdx_map_some (ids.take n) j hjlen hnd2 0]
      simp
    rw [hrun n hn le_rfl, hrel]
    refine ⟨rfl, ?_⟩
    rw [CapitalManager.allocate_capital]
    set mrel : CapitalManager :=
      { allocState cap n maxd today (ids.take n) with
        allocations := ((ids.take n).map some).set j none } with hmrel
    have hcd : mrel.current_date = some today := rfl
    have hcheck2 : mrel.check_day_change today = mrel := by
      rw [CapitalManager.check_day_change, if_pos hcd]
    have havail2 : mrel.get_available_parts = [1 + j] := by
      rw [CapitalManager.get_available_parts]
      exact availableParts_set_none (ids.take n) j 1 hjlen
    have hentries : mrel.entries_today < mrel.max_entries_per_day := by
      show (ids.take n).length < maxd
      rw [htake n le_rfl]
      omega
    rw [hcheck2, havail2]
    simp only [if_pos hentries]
    rw [Nat.add_comm 1 j]

/-- Witness for C2 on a 2-part pool with daily quota 3: "a" and "b"
claim parts 1 and 2, "c" hits the no-capital branch with the state
unchanged, and after releasing "a" the next allocation reuses part 1. -/
theorem C2_allocation_cycle_witness :
    ((CapitalManager.init 100000 2 3).allocate_capital "a" 0).1 =
      AllocResult.allocated 1 ∧
    ((allocRun (CapitalManager.init 100000 2 3) ["a"] 0).allocate_capital
        "b" 0).1 = AllocResult.allocated 2 ∧
    (allocRun (CapitalManager.init 100000 2 3) ["a", "b"] 0).allocate_capital
        "c" 0 =
      (AllocResult.noCapital,
        allocRun (CapitalManager.init 100000 2 3) ["a", "b"] 0) ∧
    ((allocRun (CapitalManager.init 100000 2 3) ["a", "b"] 0).release_capital
        "a").1 = some 1 ∧
    (((allocRun (CapitalManager.init 100000 2 3) ["a", "b"] 0).release_capital
          "a").2.allocate_capital "d" 0).1 = AllocResult.allocated 1 := by
  have h := C2_allocation_cycle 100000 2 3 0 ["a", "b", "c"] "d"
    (by norm_num) (by norm_num) (by simp) (by decide)
  obtain ⟨ha, hb, hc⟩ := h
  refine ⟨?_, ?_, ?_, ?_, ?_⟩
  · simpa using congrArg Prod.fst ((ha 0 (by norm_num)).1)
  · simpa using congrArg Prod.fst ((ha 1 (by norm_num)).1)
  · simpa using hb
  · simpa using (hc 0 (by norm_num)).1
  · simpa using (hc 0 (by norm_num)).2

/-! ## C9: slot/identifier uniqueness -/

theorem count_some_set (l : List (Option String)) (i : Nat)
    (h : l[i]? = some none) (a x : String) :
    (l.set i (some a)).count (some x) =
      l.count (some x) + (if a = x then 1 else 0) := by
  induction l generalizing i with
  | nil => simp at h
  | cons b t ih =>
    rcases i with _ | k
    · have hb : b = none := by simpa using h
      subst hb
      simp [List.count_cons]
    · have hk : t[k]? = some none := by simpa using h
      have := ih k hk
      simp only [List.set_cons_succ, List.count_cons, this]
      omega

theorem count_set_none_le (l : List (Option String)) (i : Nat) (x : String) :
    (l.set i none).count (some x) ≤ l.count (some x) := by
  induction l generalizing i with
  | nil => simp
  | cons b t ih =>
    rcases i with _ | k
    · simp only [List.set_cons_zero, List.count_cons]
      have : (none == some x) = false := by simp
      simp [this]
    · simp only [List.set_cons_succ, List.count_cons]
      have := ih k
      omega

theorem availableParts_head_none (l : List (Option String)) :
    ∀ i j rest, availableParts l i = j :: rest →
      i ≤ j ∧ l[j - i]? = some none := by
  induction l with
  | nil => intro i j rest h; simp [availableParts] at h
  | cons b t ih =>
    intro i j rest h
    cases b with
    | none =>
      have hji : j = i ∧ rest = availableParts t (i + 1) := by
        have : i :: availableParts t (i + 1) = j :: rest := h
        exact ⟨(List.cons.injEq _ _ _ _ ▸ this).1.symm,
          ((List.cons.injEq _ _ _ _ ▸ this).2).symm⟩
      obtain ⟨rfl, -⟩ := hji
      simp
    | some a =>
      have ht : availableParts t (i + 1) = j :: rest := h
      obtain ⟨hij, hnone⟩ := ih (i + 1) j rest ht
      refine ⟨by omega, ?_⟩
      have hidx : j - i = (j - (i + 1)) + 1 := by omega
      rw [hidx]
      simpa using hnone

theorem slotCount_check_day_change (m : CapitalManager) (d : ℤ) (x : String) :
    ((m.check_day_change d)).slotCount x = m.slotCount x := by
  rw [CapitalManager.check_day_change]
  split <;> rfl

theorem slotCount_allocate_le (m : CapitalManager) (idn : String) (d : ℤ)
    (hfresh : m.slotCount idn = 0) (hinv : ∀ x, m.slotCount x ≤ 1) :
    ∀ x, ((m.allocate_capital idn d).2).slotCount x ≤ 1 := by
  intro x
  rw [CapitalManager.allocate_capital]
  cases hav : (m.check_day_change d).get_available_parts with
  | nil =>
    simp only [hav]
    rw [slotCount_check_day_change]
    exact hinv x
  | cons p rest =>
    simp only [hav]
    by_cases hq : (m.check_day_change d).entries_today <
        (m.check_day_change d).max_entries_per_day
    · rw [if_pos hq]
      obtain ⟨hp1, hnone⟩ := availableParts_head_none
        (m.check_day_change d).allocations 1 p rest hav
      show ((m.check_day_change d).allocations.set (p - 1)
        (some idn)).count (some x) ≤ 1
      rw [count_some_set _ _ hnone idn x]
      have hcnt : (m.check_day_change d).allocations.count (some x) =
          m.slotCount x := slotCount_check_day_change m d x
      rw [hcnt]
      by_cases hx : idn = x
      · subst hx; simp [hfresh]
      · simp only [if_neg hx]
        simpa using hinv x
    · rw [if_neg hq]
      rw [slotCount_check_day_change]
      exact hinv x

theorem slotCount_release_le (m : CapitalManager) (idn : String)
    (hinv : ∀ x, m.slotCount x ≤ 1) :
    ∀ x, ((m.release_capital idn).2).slotCount x ≤ 1 := by
  intro x
  rw [CapitalManager.release_capital]
  cases hfind : m.allocations.findIdx? (fun o => o = some idn) with
  | none => simpa only [hfind] using hinv x
  | some i =>
    simp only [hfind]
    show (m.allocations.set i none).count (some x) ≤ 1
    exact le_trans (count_set_none_le m.allocations i x) (hinv x)

theorem SafeRun_inv (ops : List CapitalOp) :
    ∀ m : CapitalManager, (∀ x, m.slotCount x ≤ 1) → SafeRun m ops →
      ∀ x, (capitalRun m ops).slotCount x ≤ 1 := by
  induction ops with
  | nil => intro m hm _ x; exact hm x
  | cons op t ih =>
    intro m hm hs x
    cases op with
    | alloc i d =>
      exact ih _ (slotCount_allocate_le m i d hs.1 hm) hs.2 x
    | release i =>
      exact ih _ (slotCount_release_le m i hm) hs x

/-- **C9 (amended).** A slot holds at most one identifier by
construction of the allocations map; and after any sequence of
`allocate_capital` / `release_capital` calls in which allocation is
only requested for ids not currently holding a slot, every id occupies
at most one slot.  (The unamended claim fails: `allocate_capital` does
not check for an already-allocated id, so a repeated id receives a
second slot — see the counterexample.) -/
theorem C9_per_id_at_most_one_slot (cap : ℚ) (n maxd : Nat)
    (ops : List CapitalOp)
    (hs : SafeRun (CapitalManager.init cap n maxd) ops) :
    ∀ x, (capitalRun (CapitalManager.init cap n maxd) ops).slotCount x ≤ 1 := by
  refine SafeRun_inv ops _ (fun x => ?_) hs
  show (List.replicate n (none : Option String)).count (some x) ≤ 1
  simp [List.count_replicate]

/-- Witness for C9: allocate "a" and "b", release "a", allocate "c" —
every id ends up in at most one slot. -/
theorem C9_per_id_at_most_one_slot_witness :
    (capitalRun (CapitalManager.init 100000 2 3)
        [CapitalOp.alloc "a" 0, CapitalOp.alloc "b" 0, CapitalOp.release "a",
          CapitalOp.alloc "c" 0]).slotCount "a" ≤ 1 ∧
    (capitalRun (CapitalManager.init 100000 2 3)
        [CapitalOp.alloc "a" 0, CapitalOp.alloc "b" 0, CapitalOp.release "a",
          CapitalOp.alloc "c" 0]).slotCount "c" ≤ 1 := by
  have hsafe : SafeRun (CapitalManager.init 100000 2 3)
      [CapitalOp.alloc "a" 0, CapitalOp.alloc "b" 0, CapitalOp.release "a",
        CapitalOp.alloc "c" 0] :=
    ⟨by decide, by decide, by decide, trivial⟩
  exact ⟨C9_per_id_at_most_one_slot 100000 2 3 _ hsafe "a",
    C9_per_id_at_most_one_slot 100000 2 3 _ hsafe "c"⟩

/-- Counterexample for C9 as stated: a second `allocate_capital` with
an id that is already allocated gives that id a second slot (the code
performs no duplicate-id check), violating "a given position identifier
occupies at most one slot". -/
theorem C9_counterexample :
    ¬ ((((CapitalManager.init 100000 2 2).allocate_capital "x" 0).2.allocate_capital
        "x" 0).2.slotCount "x" ≤ 1) := by decide

/-! ## Normal CDF facts (for C6 and C7) -/

open MeasureTheory in
theorem gauss_integrable :
    Integrable (fun t : ℝ => Real.exp (-t ^ 2 / 2)) := by
  have heq : (fun t : ℝ => Real.exp (-t ^ 2 / 2)) =
      fun t : ℝ => Real.exp (-(1 / 2 : ℝ) * t ^ 2) := by
    funext t
    congr 1
    ring
  rw [heq]
  exact integrable_exp_neg_mul_sq (by norm_num)

theorem gauss_total :
    (∫ t : ℝ, Real.exp (-t ^ 2 / 2)) = Real.sqrt (2 * Real.pi) := by
  have heq : (fun t : ℝ => Real.exp (-t ^ 2 / 2)) =
      fun t : ℝ => Real.exp (-(1 / 2 : ℝ) * t ^ 2) := by
    funext t
    congr 1
    ring
  rw [heq, integral_gaussian]
  congr 1
  rw [div_div_eq_mul_div]
  ring

open MeasureTheory in
theorem setIntegral_gauss_pos (s : Set ℝ) (hvol : 0 < volume s) :
    0 < ∫ t in s, Real.exp (-t ^ 2 / 2) := by
  rw [setIntegral_pos_iff_support_of_nonneg_ae
    (ae_of_all _ fun t => (Real.exp_pos _).le) gauss_integrable.integrableOn]
  have hsupp : Function.support (fun t : ℝ => Real.exp (-t ^ 2 / 2)) =
      Set.univ := by
    ext t
    simp [Real.exp_ne_zero]
  rw [hsupp, Set.univ_inter]
  exact hvol

theorem normCdf_pos (x : ℝ) : 0 < normCdf x := by
  apply mul_pos
  · rw [inv_pos]
    exact Real.sqrt_pos.2 (by positivity)
  · exact setIntegral_gauss_pos _ (by rw [Real.volume_Iic]; simp)

open MeasureTheory in
theorem gauss_Iic_add_Ioi (x : ℝ) :
    (∫ t in Set.Iic x, Real.exp (-t ^ 2 / 2)) +
      (∫ t in Set.Ioi x, Real.exp (-t ^ 2 / 2)) = Real.sqrt (2 * Real.pi) := by
  rw [← gauss_total,
    ← integral_add_compl measurableSet_Iic gauss_integrable, Set.compl_Iic]

theorem normCdf_lt_one (x : ℝ) : normCdf x < 1 := by
  have hsq : 0 < Real.sqrt (2 * Real.pi) := Real.sqrt_pos.2 (by positivity)
  have hpos := setIntegral_gauss_pos (Set.Ioi x)
    (by rw [Real.volume_Ioi]; simp)
  have hsum := gauss_Iic_add_Ioi x
  have hlt : (∫ t in Set.Iic x, Real.exp (-t ^ 2 / 2)) <
      Real.sqrt (2 * Real.pi) := by linarith
  have hfin : normCdf x < (Real.sqrt (2 * Real.pi))⁻¹ * Real.sqrt (2 * Real.pi) :=
    mul_lt_mul_of_pos_left hlt (inv_pos.2 hsq)
  rwa [inv_mul_cancel₀ (ne_of_gt hsq)] at hfin

/-! ## Degenerate-input evaluation of the pricing functions -/

theorem d1d2_degenerate (bs : BlackScholesCalculator) (S K T sigma : ℝ)
    (h : T ≤ 0 ∨ sigma ≤ 0) : bs.d1d2 S K T sigma = (0, 0) := by
  rw [BlackScholesCalculator.d1d2, if_pos h]

theorem call_delta_degenerate (bs : BlackScholesCalculator) (S K T sigma : ℝ)
    (h : T ≤ 0 ∨ sigma ≤ 0) : bs.calculate_call_delta S K T sigma = 0 := by
  rw [BlackScholesCalculator.calculate_call_delta]
  simp [d1d2_degenerate bs S K T sigma h]

theorem put_delta_degenerate (bs : BlackScholesCalculator) (S K T sigma : ℝ)
    (h : T ≤ 0 ∨ sigma ≤ 0) : bs.calculate_put_delta S K T sigma = 0 := by
  rw [BlackScholesCalculator.calculate_put_delta]
  simp [d1d2_degenerate bs S K T sigma h]

theorem call_price_degenerate (bs : BlackScholesCalculator) (S K T sigma : ℝ)
    (h : T ≤ 0 ∨ sigma ≤ 0) :
    bs.calculate_call_price S K T sigma = max 0 (S - K) := by
  rw [BlackScholesCalculator.calculate_call_price]
  simp [d1d2_degenerate bs S K T sigma h]

theorem put_price_degenerate (bs : BlackScholesCalculator) (S K T sigma : ℝ)
    (h : T ≤ 0 ∨ sigma ≤ 0) :
    bs.calculate_put_price S K T sigma = max 0 (K - S) := by
  rw [BlackScholesCalculator.calculate_put_price]
  simp [d1d2_degenerate bs S K T sigma h]

/-! ## C7: delta ranges and degenerate inputs -/

/-- **C7 (amended).** With a nonnegative dividend yield, for positive
`S, K, T, σ` whose computed `d1` is nonzero, the call delta lies in
`(0, 1)` and the put delta in `(−1, 0)`; degenerate inputs (`T ≤ 0` or
`σ ≤ 0`) make the pricing functions return the intrinsic value and the
deltas zero.  (The unamended claim — the open ranges for *every*
positive input — fails because the code reuses `d1 == 0` as its
degenerate-input sentinel, so an input whose true `d1` is exactly zero
returns delta 0; see the counterexample.) -/
theorem C7_delta_ranges (bs : BlackScholesCalculator) (hq : 0 ≤ bs.q) :
    (∀ S K T sigma : ℝ, 0 < S → 0 < K → 0 < T → 0 < sigma →
        (bs.d1d2 S K T sigma).1 ≠ 0 →
        bs.calculate_call_delta S K T sigma ∈ Set.Ioo (0 : ℝ) 1 ∧
          bs.calculate_put_delta S K T sigma ∈ Set.Ioo (-1 : ℝ) 0) ∧
    (∀ S K T sigma : ℝ, T ≤ 0 ∨ sigma ≤ 0 →
        bs.calculate_call_price S K T sigma = max 0 (S - K) ∧
          bs.calculate_put_price S K T sigma = max 0 (K - S) ∧
          bs.calculate_call_delta S K T sigma = 0 ∧
          bs.calculate_put_delta S K T sigma = 0) := by
  constructor
  · intro S K T sigma hS hK hT hsigma hd1
    have hcd : bs.calculate_call_delta S K T sigma =
        Real.exp (-bs.q * T) * normCdf (bs.d1d2 S K T sigma).1 := by
      rw [BlackScholesCalculator.calculate_call_delta, if_neg hd1]
    have hpd : bs.calculate_put_delta S K T sigma =
        Real.exp (-bs.q * T) * (normCdf (bs.d1d2 S K T sigma).1 - 1) := by
      rw [BlackScholesCalculator.calculate_put_delta, if_neg hd1]
    have he1 : 0 < Real.exp (-bs.q * T) := Real.exp_pos _
    have he2 : Real.exp (-bs.q * T) ≤ 1 := by
      rw [Real.exp_le_one_iff]
      nlinarith
    have hn1 := normCdf_pos (bs.d1d2 S K T sigma).1
    have hn2 := normCdf_lt_one (bs.d1d2 S K T sigma).1
    constructor
    · rw [hcd]
      exact ⟨mul_pos he1 hn1, by nlinarith⟩
    · rw [hpd]
      constructor
      · nlinarith
      · exact mul_neg_of_pos_of_neg he1 (by linarith)
  · intro S K T sigma h
    exact ⟨call_price_degenerate bs S K T sigma h,
      put_price_degenerate bs S K T sigma h,
      call_delta_degenerate bs S K T sigma h,
      put_delta_degenerate bs S K T sigma h⟩

/-- Witness for C7 at `S = K = T = σ = 1` in futures mode, where
`d1 = 1/2 ≠ 0`, and at the degenerate input `T = 0`. -/
theorem C7_delta_ranges_witness :
    (futuresModeBS.calculate_call_delta 1 1 1 1 ∈ Set.Ioo (0 : ℝ) 1 ∧
      futuresModeBS.calculate_put_delta 1 1 1 1 ∈ Set.Ioo (-1 : ℝ) 0) ∧
    (futuresModeBS.calculate_call_price 5 3 0 1 = max 0 (5 - 3) ∧
      futuresModeBS.calculate_put_price 5 3 0 1 = max 0 (3 - 5) ∧
      futuresModeBS.calculate_call_delta 5 3 0 1 = 0 ∧
      futuresModeBS.calculate_put_delta 5 3 0 1 = 0) := by
  have h := C7_delta_ranges futuresModeBS (le_refl 0)
  refine ⟨h.1 1 1 1 1 one_pos one_pos one_pos one_pos ?_,
    h.2 5 3 0 1 (Or.inl le_rfl)⟩
  have hd1 : (futuresModeBS.d1d2 1 1 1 1).1 = 1 / 2 := by
    rw [BlackScholesCalculator.d1d2, if_neg (by norm_num),
      if_neg (by norm_num)]
    show (Real.log (1 / 1) + (futuresModeBS.r - futuresModeBS.q +
        0.5 * (1 : ℝ) ^ 2) * 1) / (1 * Real.sqrt 1) = 1 / 2
    rw [Real.sqrt_one]
    norm_num [futuresModeBS, Real.log_one]
  rw [hd1]
  norm_num

/-- Counterexample for C7 as stated: at the positive input
`S = 1, K = 2, T = 1, σ = √(2 ln 2)` (futures mode) the computed `d1`
is exactly 0, so `calculate_call_delta` takes the degenerate sentinel
branch and returns 0, which is outside the open interval `(0, 1)`. -/
theorem C7_counterexample :
    (0 : ℝ) < 1 ∧ (0 : ℝ) < 2 ∧
      0 < Real.sqrt (2 * Real.log 2) ∧
      futuresModeBS.calculate_call_delta 1 2 1 (Real.sqrt (2 * Real.log 2)) = 0 ∧
      futuresModeBS.calculate_call_delta 1 2 1 (Real.sqrt (2 * Real.log 2)) ∉
        Set.Ioo (0 : ℝ) 1 := by
  have hlog : 0 < Real.log 2 := Real.log_pos one_lt_two
  have hsig : 0 < Real.sqrt (2 * Real.log 2) := Real.sqrt_pos.2 (by linarith)
  have hd1 : (futuresModeBS.d1d2 1 2 1 (Real.sqrt (2 * Real.log 2))).1 = 0 := by
    rw [BlackScholesCalculator.d1d2, if_neg (by push_neg; exact ⟨one_pos, hsig⟩),
      if_neg (by norm_num)]
    show (Real.log (1 / 2) + (futuresModeBS.r - futuresModeBS.q +
        0.5 * Real.sqrt (2 * Real.log 2) ^ 2) * 1) /
        (Real.sqrt (2 * Real.log 2) * Real.sqrt 1) = 0
    have hsq : Real.sqrt (2 * Real.log 2) ^ 2 = 2 * Real.log 2 :=
      Real.sq_sqrt (by linarith)
    have hhalf : Real.log (1 / 2) = -Real.log 2 := by
      rw [one_div, Real.log_inv]
    rw [hsq, hhalf]
    have hnum : -Real.log 2 + (futuresModeBS.r - futuresModeBS.q +
        0.5 * (2 * Real.log 2)) * 1 = 0 := by
      show -Real.log 2 + ((0 : ℝ) - 0 + 0.5 * (2 * Real.log 2)) * 1 = 0
      ring
    rw [hnum, zero_div]
  have hdelta : futuresModeBS.calculate_call_delta 1 2 1
      (Real.sqrt (2 * Real.log 2)) = 0 := by
    show (if (futuresModeBS.d1d2 1 2 1 (Real.sqrt (2 * Real.log 2))).1 = 0
      then (0 : ℝ)
      else Real.exp (-futuresModeBS.q * 1) *
        normCdf (futuresModeBS.d1d2 1 2 1 (Real.sqrt (2 * Real.log 2))).1) = 0
    rw [if_pos hd1]
  exact ⟨one_pos, two_pos, hsig, hdelta, by rw [hdelta]; simp⟩

/-! ## C6: the implied-volatility solver signals failure only by `none` -/

theorem call_price_le_spot (S K T sigma : ℝ) (hS : 0 ≤ S) (hK : 0 ≤ K) :
    futuresModeBS.calculate_call_price S K T sigma ≤ S := by
  by_cases hd : (futuresModeBS.d1d2 S K T sigma).1 = 0
  · rw [BlackScholesCalculator.calculate_call_price]
    show (if (futuresModeBS.d1d2 S K T sigma).1 = 0 then max 0 (S - K)
      else _) ≤ S
    rw [if_pos hd]
    exact max_le hS (by linarith)
  · rw [BlackScholesCalculator.calculate_call_price]
    show (if (futuresModeBS.d1d2 S K T sigma).1 = 0 then max 0 (S - K)
      else max 0 (S * Real.exp (-futuresModeBS.q * T) *
          normCdf (futuresModeBS.d1d2 S K T sigma).1 -
        K * Real.exp (-futuresModeBS.r * T) *
          normCdf (futuresModeBS.d1d2 S K T sigma).2)) ≤ S
    rw [if_neg hd]
    have hq0 : futuresModeBS.q = 0 := rfl
    have hr0 : futuresModeBS.r = 0 := rfl
    rw [hq0, hr0]
    simp only [neg_zero, zero_mul, Real.exp_zero, mul_one]
    refine max_le hS ?_
    have h1 := normCdf_pos (futuresModeBS.d1d2 S K T sigma).2
    have h2 := normCdf_lt_one (futuresModeBS.d1d2 S K T sigma).1
    have h3 := normCdf_pos (futuresModeBS.d1d2 S K T sigma).1
    nlinarith [mul_nonneg hK h1.le,
      mul_le_mul_of_nonneg_left h2.le hS]

/-- **C6.** `calculate_implied_volatility` returns `none` whenever the
market price is nonpositive, the expiry is nonpositive, the market
price is strictly below the intrinsic value, or the bracketed solver
has no sign change on `[0.0001, 5.0]` (the `brentq` `ValueError`
path, caught and turned into `None`); any returned volatility lies at
or above the bracket's lower end `0.0001`, so failure is never signalled
by a zero (and the function is total, so it never raises). -/
theorem C6_iv_not_found (bs : BlackScholesCalculator)
    (S K T market_price : ℝ) (is_call : Bool) :
    (market_price ≤ 0 →
      bs.calculate_implied_volatility S K T market_price is_call = none) ∧
    (T ≤ 0 →
      bs.calculate_implied_volatility S K T market_price is_call = none) ∧
    (market_price < (if is_call then max 0 (S - K) else max 0 (K - S)) →
      bs.calculate_implied_volatility S K T market_price is_call = none) ∧
    (0 < ((if is_call then bs.calculate_call_price S K T 0.0001
            else bs.calculate_put_price S K T 0.0001) - market_price) *
          ((if is_call then bs.calculate_call_price S K T 5.0
            else bs.calculate_put_price S K T 5.0) - market_price) →
      bs.calculate_implied_volatility S K T market_price is_call = none) ∧
    (∀ iv, bs.calculate_implied_volatility S K T market_price is_call =
        some iv → 0.0001 ≤ iv ∧ iv ≠ 0) := by
  refine ⟨fun h => ?_, fun h => ?_, fun h => ?_, fun h => ?_, fun iv h => ?_⟩
  · rw [BlackScholesCalculator.calculate_implied_volatility,
      if_pos (Or.inl h)]
  · rw [BlackScholesCalculator.calculate_implied_volatility,
      if_pos (Or.inr h)]
  · rw [BlackScholesCalculator.calculate_implied_volatility]
    by_cases hg : market_price ≤ 0 ∨ T ≤ 0
    · rw [if_pos hg]
    · rw [if_neg hg]
      show (if market_price <
          (if is_call then max 0 (S - K) else max 0 (K - S)) then none
        else _) = none
      rw [if_pos h]
  · rw [BlackScholesCalculator.calculate_implied_volatility]
    by_cases hg : market_price ≤ 0 ∨ T ≤ 0
    · rw [if_pos hg]
    · rw [if_neg hg]
      by_cases hi : market_price <
          (if is_call then max 0 (S - K) else max 0 (K - S))
      · show (if market_price <
            (if is_call then max 0 (S - K) else max 0 (K - S)) then none
          else _) = none
        rw [if_pos hi]
      · show (if market_price <
            (if is_call then max 0 (S - K) else max 0 (K - S)) then none
          else brentq (fun sigma =>
            (if is_call then bs.calculate_call_price S K T sigma
              else bs.calculate_put_price S K T sigma) - market_price)
            0.0001 5.0) = none
        rw [if_neg hi, brentq, if_pos h]
  · rw [BlackScholesCalculator.calculate_implied_volatility] at h
    by_cases hg : market_price ≤ 0 ∨ T ≤ 0
    · rw [if_pos hg] at h; cases h
    · rw [if_neg hg] at h
      by_cases hi : market_price <
          (if is_call then max 0 (S - K) else max 0 (K - S))
      · rw [if_pos hi] at h; cases h
      · rw [if_neg hi, brentq] at h
        by_cases hsign : 0 < ((fun sigma =>
            (if is_call then bs.calculate_call_price S K T sigma
              else bs.calculate_put_price S K T sigma) - market_price) 0.0001) *
            ((fun sigma =>
            (if is_call then bs.calculate_call_price S K T sigma
              else bs.calculate_put_price S K T sigma) - market_price) 5.0)
        · rw [if_pos hsign] at h; cases h
        · rw [if_neg hsign] at h
          by_cases hex : ∃ x ∈ Set.Icc (0.0001 : ℝ) 5.0, ((fun sigma =>
              (if is_call then bs.calculate_call_price S K T sigma
                else bs.calculate_put_price S K T sigma) - market_price) x) = 0
          · rw [dif_pos hex] at h
            obtain rfl : hex.choose = iv := by
              simpa using h
            have hmem := hex.choose_spec.1
            exact ⟨hmem.1, by have := hmem.1; norm_num at this ⊢; linarith⟩
          · rw [dif_neg hex] at h
            obtain rfl : (0.0001 : ℝ) = iv := by simpa using h
            exact ⟨le_rfl, by norm_num⟩

/-- Witness for C6: the guard branches at concrete inputs, a
no-sign-change bracket (market price 200 above any call value on a spot
of 100), and a successful solve returning a volatility at or above the
bracket floor. -/
theorem C6_iv_not_found_witness :
    futuresModeBS.calculate_implied_volatility 100 100 1 (-1) true = none ∧
    futuresModeBS.calculate_implied_volatility 100 100 0 5 true = none ∧
    futuresModeBS.calculate_implied_volatility 110 100 1 1 true = none ∧
    futuresModeBS.calculate_implied_volatility 100 100 1 200 true = none ∧
    (∃ iv, futuresModeBS.calculate_implied_volatility 1 (-1) 1 2 true =
        some iv ∧ 0.0001 ≤ iv ∧ iv ≠ 0) := by
  refine ⟨(C6_iv_not_found futuresModeBS 100 100 1 (-1) true).1 (by norm_num),
    (C6_iv_not_found futuresModeBS 100 100 0 5 true).2.1 le_rfl,
    (C6_iv_not_found futuresModeBS 110 100 1 1 true).2.2.1 (by norm_num),
    (C6_iv_not_found futuresModeBS 100 100 1 200 true).2.2.2.1 ?_, ?_⟩
  · have h1 := call_price_le_spot 100 100 1 0.0001 (by norm_num) (by norm_num)
    have h2 := call_price_le_spot 100 100 1 5.0 (by norm_num) (by norm_num)
    show 0 < (futuresModeBS.calculate_call_price 100 100 1 0.0001 - 200) *
      (futuresModeBS.calculate_call_price 100 100 1 5.0 - 200)
    exact mul_pos_of_neg_of_neg (by linarith) (by linarith)
  · have hprice : ∀ sigma : ℝ, 0 < sigma →
        futuresModeBS.calculate_call_price 1 (-1) 1 sigma = 2 := by
      intro sigma hsigma
      have hd : futuresModeBS.d1d2 1 (-1) 1 sigma = (0, 0) := by
        rw [BlackScholesCalculator.d1d2,
          if_neg (by push_neg; exact ⟨one_pos, hsigma⟩), if_pos (by norm_num)]
      rw [BlackScholesCalculator.calculate_call_price]
      show (if (futuresModeBS.d1d2 1 (-1) 1 sigma).1 = 0
        then max 0 (1 - (-1)) else _) = 2
      rw [if_pos (by rw [hd])]
      norm_num
    have hsome : ∃ iv, futuresModeBS.calculate_implied_volatility
        1 (-1) 1 2 true = some iv := by
      rw [BlackScholesCalculator.calculate_implied_volatility,
        if_neg (by push_neg; norm_num)]
      refine Option.isSome_iff_exists.1 ?_
      show (if (2 : ℝ) < (if true = true then max (0 : ℝ) (1 - (-1))
          else max (0 : ℝ) ((-1) - 1)) then none
        else brentq (fun sigma =>
          (if true = true then futuresModeBS.calculate_call_price 1 (-1) 1 sigma
            else futuresModeBS.calculate_put_price 1 (-1) 1 sigma) - 2)
          0.0001 5.0).isSome = true
      rw [if_neg (by norm_num), brentq]
      rw [if_neg (by
        show ¬ (0 < (futuresModeBS.calculate_call_price 1 (-1) 1 0.0001 - 2) *
          (futuresModeBS.calculate_call_price 1 (-1) 1 5.0 - 2))
        rw [hprice 0.0001 (by norm_num), hprice 5.0 (by norm_num)]
        norm_num)]
      by_cases hex : ∃ x ∈ Set.Icc (0.0001 : ℝ) 5.0,
          (if true = true then futuresModeBS.calculate_call_price 1 (-1) 1 x
            else futuresModeBS.calculate_put_price 1 (-1) 1 x) - 2 = 0
      · rw [dif_pos hex]; rfl
      · rw [dif_neg hex]; rfl
    obtain ⟨iv, hiv⟩ := hsome
    have hb := (C6_iv_not_found futuresModeBS 1 (-1) 1 2 true).2.2.2.2 iv hiv
    exact ⟨iv, hiv, hb⟩

/-! ## Strike-selection lemmas (for C5 and C8) -/

theorem deltaScan_mem (f key : ℝ → ℝ) (target : ℝ) :
    ∀ (l : List ℝ) (acc : Option (ℝ × ℝ × ℝ)) (r : ℝ × ℝ × ℝ),
      deltaScan f key target l acc = some r → r.1 ∈ l ∨ acc = some r := by
  intro l
  induction l with
  | nil =>
    intro acc r h
    simp only [deltaScan] at h
    exact Or.inr h
  | cons s rest ih =>
    intro acc r h
    simp only [deltaScan] at h
    by_cases hskip : 0.20 < key (f s)
    · rw [if_pos hskip] at h
      rcases ih acc r h with hmem | hacc
      · exact Or.inl (List.mem_cons_of_mem _ hmem)
      · exact Or.inr hacc
    · rw [if_neg hskip] at h
      cases acc with
      | none =>
        replace h : deltaScan f key target rest
            (some (s, f s, |key (f s) - target|)) = some r := h
        rcases ih _ r h with hmem | hacc
        · exact Or.inl (List.mem_cons_of_mem _ hmem)
        · obtain rfl := Option.some.inj hacc
          exact Or.inl (List.mem_cons_self _ _)
      | some best =>
        replace h : (if |key (f s) - target| < best.2.2 then
            deltaScan f key target rest (some (s, f s, |key (f s) - target|))
          else deltaScan f key target rest (some best)) = some r := h
        by_cases hlt : |key (f s) - target| < best.2.2
        · rw [if_pos hlt] at h
          rcases ih _ r h with hmem | hacc
          · exact Or.inl (List.mem_cons_of_mem _ hmem)
          · obtain rfl := Option.some.inj hacc
            exact Or.inl (List.mem_cons_self _ _)
        · rw [if_neg hlt] at h
          rcases ih _ r h with hmem | hacc
          · exact Or.inl (List.mem_cons_of_mem _ hmem)
          · exact Or.inr hacc

theorem foldl_max_mem (t : List ℝ) : ∀ h : ℝ, t.foldl max h ∈ h :: t := by
  induction t with
  | nil => intro h; simp
  | cons a rest ih =>
    intro h
    rw [List.foldl_cons]
    rcases List.mem_cons.1 (ih (max h a)) with heq | hmem
    · rcases max_choice h a with h1 | h1
      · rw [heq, h1]; exact List.mem_cons_self _ _
      · rw [heq, h1]
        exact List.mem_cons_of_mem _ (List.mem_cons_self _ _)
    · exact List.mem_cons_of_mem _ (List.mem_cons_of_mem _ hmem)

theorem foldl_max_ge (t : List ℝ) :
    ∀ (h x : ℝ), x ∈ h :: t → x ≤ t.foldl max h := by
  induction t with
  | nil =>
    intro h x hx
    simp only [List.mem_singleton] at hx
    simp [hx]
  | cons a rest ih =>
    intro h x hx
    rw [List.foldl_cons]
    rcases List.mem_cons.1 hx with rfl | hx2
    · exact le_trans (le_max_left x a) (ih _ _ (List.mem_cons_self _ _))
    · rcases List.mem_cons.1 hx2 with rfl | hx3
      · exact le_trans (le_max_right h x) (ih _ _ (List.mem_cons_self _ _))
      · exact ih _ _ (List.mem_cons_of_mem _ hx3)

theorem foldl_min_mem (t : List ℝ) : ∀ h : ℝ, t.foldl min h ∈ h :: t := by
  induction t with
  | nil => intro h; simp
  | cons a rest ih =>
    intro h
    rw [List.foldl_cons]
    rcases List.mem_cons.1 (ih (min h a)) with heq | hmem
    · rcases min_choice h a with h1 | h1
      · rw [heq, h1]; exact List.mem_cons_self _ _
      · rw [heq, h1]
        exact List.mem_cons_of_mem _ (List.mem_cons_self _ _)
    · exact List.mem_cons_of_mem _ (List.mem_cons_of_mem _ hmem)

theorem foldl_min_le (t : List ℝ) :
    ∀ (h x : ℝ), x ∈ h :: t → t.foldl min h ≤ x := by
  induction t with
  | nil =>
    intro h x hx
    simp only [List.mem_singleton] at hx
    simp [hx]
  | cons a rest ih =>
    intro h x hx
    rw [List.foldl_cons]
    rcases List.mem_cons.1 hx with rfl | hx2
    · exact le_trans (ih _ _ (List.mem_cons_self _ _)) (min_le_left x a)
    · rcases List.mem_cons.1 hx2 with rfl | hx3
      · exact le_trans (ih _ _ (List.mem_cons_self _ _)) (min_le_right h x)
      · exact ih _ _ (List.mem_cons_of_mem _ hx3)

theorem pyRound_intCast (n : ℤ) : pyRound ((n : ℤ) : ℝ) = n := by
  rw [pyRound]
  norm_num [Int.floor_intCast]

theorem get_atm_strike_eval (x : ℝ) (n : ℤ) (h : x / 50 = (n : ℝ)) :
    get_atm_strike x strikeInterval = (n : ℝ) * 50 := by
  rw [get_atm_strike, strikeInterval, h, pyRound_intCast]

theorem find_call_eq_scan (bs : BlackScholesCalculator) (spot target : ℝ)
    (days : ℤ) (iv : ℝ) (strikes : List ℝ) (best : ℝ × ℝ × ℝ)
    (hscan : deltaScan
      (fun s => bs.calculate_call_delta spot s ((days : ℝ) / 365) iv) id target
      (strikes.filter fun s => decide (get_atm_strike spot strikeInterval < s))
      none = some best) :
    find_call_strike_for_delta bs spot target days iv strikes =
      (best.1, best.2.1) := by
  simp only [find_call_strike_for_delta]
  rw [hscan]

theorem find_call_eq_fallback (bs : BlackScholesCalculator) (spot target : ℝ)
    (days : ℤ) (iv : ℝ) (strikes : List ℝ) (h : ℝ) (t : List ℝ)
    (hfil : (strikes.filter fun s =>
      decide (get_atm_strike spot strikeInterval < s)) = h :: t)
    (hscan : deltaScan
      (fun s => bs.calculate_call_delta spot s ((days : ℝ) / 365) iv) id target
      (h :: t) none = none) :
    find_call_strike_for_delta bs spot target days iv strikes =
      (t.foldl max h,
        bs.calculate_call_delta spot (t.foldl max h) ((days : ℝ) / 365) iv) := by
  simp only [find_call_strike_for_delta]
  rw [hfil, hscan]

theorem find_put_eq_scan (bs : BlackScholesCalculator) (spot target : ℝ)
    (days : ℤ) (iv : ℝ) (strikes : List ℝ) (best : ℝ × ℝ × ℝ)
    (hscan : deltaScan
      (fun s => bs.calculate_put_delta spot s ((days : ℝ) / 365) iv) abs target
      (strikes.filter fun s => decide (s < get_atm_strike spot strikeInterval))
      none = some best) :
    find_put_strike_for_delta bs spot target days iv strikes =
      (best.1, best.2.1) := by
  simp only [find_put_strike_for_delta]
  rw [hscan]

theorem find_put_eq_fallback (bs : BlackScholesCalculator) (spot target : ℝ)
    (days : ℤ) (iv : ℝ) (strikes : List ℝ) (h : ℝ) (t : List ℝ)
    (hfil : (strikes.filter fun s =>
      decide (s < get_atm_strike spot strikeInterval)) = h :: t)
    (hscan : deltaScan
      (fun s => bs.calculate_put_delta spot s ((days : ℝ) / 365) iv) abs target
      (h :: t) none = none) :
    find_put_strike_for_delta bs spot target days iv strikes =
      (t.foldl min h,
        bs.calculate_put_delta spot (t.foldl min h) ((days : ℝ) / 365) iv) := by
  simp only [find_put_strike_for_delta]
  rw [hfil, hscan]

/-! ## C5: fallback guarantees of strike selection -/

/-- **C5 (amended).** In the flat-IV path
(`find_call_strike_for_delta` / `find_put_strike_for_delta`), a
non-empty out-of-the-money strike list on a side always yields a strike
from that side, and when no candidate passes the delta band the
selection falls back to the most out-of-the-money strike (the maximum
for calls, the minimum for puts).  (The unamended claim also asserts
this for the chain-based path `find_strikes_from_option_chain`, but
that path has no fallback: if either side finds no candidate, the whole
selection returns the failure sentinel `(0, 0)` — see the
counterexample.) -/
theorem C5_fallback (bs : BlackScholesCalculator) (spot target : ℝ)
    (days : ℤ) (iv : ℝ) (strikes : List ℝ) :
    ((strikes.filter fun s =>
        decide (get_atm_strike spot strikeInterval < s)) ≠ [] →
      (find_call_strike_for_delta bs spot target days iv strikes).1 ∈
        strikes.filter fun s =>
          decide (get_atm_strike spot strikeInterval < s)) ∧
    ((strikes.filter fun s =>
        decide (s < get_atm_strike spot strikeInterval)) ≠ [] →
      (find_put_strike_for_delta bs spot target days iv strikes).1 ∈
        strikes.filter fun s =>
          decide (s < get_atm_strike spot strikeInterval)) ∧
    (∀ (h : ℝ) (t : List ℝ),
      (strikes.filter fun s =>
        decide (get_atm_strike spot strikeInterval < s)) = h :: t →
      deltaScan (fun s => bs.calculate_call_delta spot s ((days : ℝ) / 365) iv)
        id target (h :: t) none = none →
      (find_call_strike_for_delta bs spot target days iv strikes).1 =
          t.foldl max h ∧
        ∀ x ∈ h :: t, x ≤ t.foldl max h) ∧
    (∀ (h : ℝ) (t : List ℝ),
      (strikes.filter fun s =>
        decide (s < get_atm_strike spot strikeInterval)) = h :: t →
      deltaScan (fun s => bs.calculate_put_delta spot s ((days : ℝ) / 365) iv)
        abs target (h :: t) none = none →
      (find_put_strike_for_delta bs spot target days iv strikes).1 =
          t.foldl min h ∧
        ∀ x ∈ h :: t, t.foldl min h ≤ x) := by
  refine ⟨fun hne => ?_, fun hne => ?_, fun h t hfil hscan => ?_,
    fun h t hfil hscan => ?_⟩
  · cases hscan : deltaScan
        (fun s => bs.calculate_call_delta spot s ((days : ℝ) / 365) iv) id
        target (strikes.filter fun s =>
          decide (get_atm_strike spot strikeInterval < s)) none with
    | some best =>
      rw [find_call_eq_scan bs spot target days iv strikes best hscan]
      rcases deltaScan_mem _ _ _ _ _ best hscan with hmem | habs
      · exact hmem
      · exact absurd habs (by simp)
    | none =>
      obtain ⟨h, t, hfil⟩ : ∃ h t, (strikes.filter fun s =>
          decide (get_atm_strike spot strikeInterval < s)) = h :: t := by
        cases hfl : strikes.filter fun s =>
            decide (get_atm_strike spot strikeInterval < s) with
        | nil => exact absurd hfl hne
        | cons a b => exact ⟨a, b, rfl⟩
      rw [find_call_eq_fallback bs spot target days iv strikes h t hfil
        (hfil ▸ hscan), hfil]
      exact foldl_max_mem t h
  · cases hscan : deltaScan
        (fun s => bs.calculate_put_delta spot s ((days : ℝ) / 365) iv) abs
        target (strikes.filter fun s =>
          decide (s < get_atm_strike spot strikeInterval)) none with
    | some best =>
      rw [find_put_eq_scan bs spot target days iv strikes best hscan]
      rcases deltaScan_mem _ _ _ _ _ best hscan with hmem | habs
      · exact hmem
      · exact absurd habs (by simp)
    | none =>
      obtain ⟨h, t, hfil⟩ : ∃ h t, (strikes.filter fun s =>
          decide (s < get_atm_strike spot strikeInterval)) = h :: t := by
        cases hfl : strikes.filter fun s =>
            decide (s < get_atm_strike spot strikeInterval) with
        | nil => exact absurd hfl hne
        | cons a b => exact ⟨a, b, rfl⟩
      rw [find_put_eq_fallback bs spot target days iv strikes h t hfil
        (hfil ▸ hscan), hfil]
      exact foldl_min_mem t h
  · rw [find_call_eq_fallback bs spot target days iv strikes h t hfil hscan]
    exact ⟨rfl, fun x hx => foldl_max_ge t h x hx⟩
  · rw [find_put_eq_fallback bs spot target days iv strikes h t hfil hscan]
    exact ⟨rfl, fun x hx => foldl_min_le t h x hx⟩

/-- Witness for C5: on the strike list `[150, 50]` around spot 100,
both sides are non-empty, so both selectors return a strike from their
side. -/
theorem C5_fallback_witness :
    (find_call_strike_for_delta futuresModeBS 100 0.07 14 0.15 [150, 50]).1 ∈
      ([150, 50] : List ℝ).filter (fun s =>
        decide (get_atm_strike 100 strikeInterval < s)) ∧
    (find_put_strike_for_delta futuresModeBS 100 0.07 14 0.15 [150, 50]).1 ∈
      ([150, 50] : List ℝ).filter (fun s =>
        decide (s < get_atm_strike 100 strikeInterval)) := by
  have hatm : get_atm_strike 100 strikeInterval = 100 := by
    rw [get_atm_strike_eval 100 2 (by norm_num)]
    norm_num
  have h := C5_fallback futuresModeBS 100 0.07 14 0.15 [150, 50]
  refine ⟨h.1 ?_, h.2.1 ?_⟩
  · simp only [hatm, List.filter_cons, List.filter_nil, decide_eq_true_eq]
    norm_num
  · simp only [hatm, List.filter_cons, List.filter_nil, decide_eq_true_eq]
    norm_num

/-- Counterexample for C5 as stated: in the chain-based path, a chain
with an out-of-the-money call at strike 150 (above the underlying 100)
and an out-of-the-money put at 50 — both excluded by the `iv > 0`
filter — makes the whole selection return the failure sentinel
`(0, 0)` instead of falling back to the furthest OTM strike. -/
theorem C5_counterexample :
    find_strikes_from_option_chain futuresModeBS 100
        [(150, ⟨some ⟨5, 0⟩, none⟩), (50, ⟨none, some ⟨5, 0⟩⟩)] 14 0.07 =
      (0, 0) ∧
    (100 : ℝ) < 150 := by
  refine ⟨?_, by norm_num⟩
  have hatm : get_atm_strike 100 strikeInterval = 100 := by
    rw [get_atm_strike_eval 100 2 (by norm_num)]
    norm_num
  have hlookup : lookupStrike
      [(150, ⟨some ⟨5, 0⟩, none⟩), (50, ⟨none, some ⟨5, 0⟩⟩)] 100 = none := by
    rw [lookupStrike, List.find?_cons_of_neg _ (by norm_num),
      List.find?_cons_of_neg _ (by norm_num), List.find?_nil]
    rfl
  have hce : chainScanCE futuresModeBS 100 (((14 : ℤ) : ℝ) / 365) 0.07
      [(150, ⟨some ⟨5, 0⟩, none⟩), (50, ⟨none, some ⟨5, 0⟩⟩)] none = none := by
    norm_num [chainScanCE]
  simp only [find_strikes_from_option_chain]
  rw [if_neg (by norm_num), if_neg (by simp)]
  set synth := (match lookupStrike
      [((150 : ℝ), (⟨some ⟨5, 0⟩, none⟩ : StrikeQuotes)),
        ((50 : ℝ), (⟨none, some ⟨5, 0⟩⟩ : StrikeQuotes))]
      (get_atm_strike 100 strikeInterval) with
    | none => (100 : ℝ)
    | some sq =>
      match sq.ce, sq.pe with
      | some atm_ce, some atm_pe =>
        get_atm_strike 100 strikeInterval + atm_ce.ltp - atm_pe.ltp
      | _, _ => (100 : ℝ)) with hsynth
  rw [hatm, hlookup] at hsynth
  simp only [] at hsynth
  rw [hsynth, hce]

/-! ## C8: tie-breaking between equidistant candidates -/

/-- **C8 (amended).** When two candidate strikes on the same side pass
the delta band and their deltas are exactly equidistant from the
target, the scan keeps the candidate that appears first in the strike
list (the strict `diff < min_diff` test never replaces an equal-diff
best).  With the ascending strike list this is the lower strike: for
puts that is the further out-of-the-money strike, as the claim states,
but for calls it is the nearer-the-money strike, contradicting the
claimed prefer-further-OTM rule — see the counterexample. -/
theorem C8_tie_break (bs : BlackScholesCalculator) (spot target : ℝ)
    (days : ℤ) (iv : ℝ) (s1 s2 : ℝ) :
    (get_atm_strike spot strikeInterval < s1 →
      get_atm_strike spot strikeInterval < s2 →
      ¬ (0.20 < bs.calculate_call_delta spot s1 ((days : ℝ) / 365) iv) →
      ¬ (0.20 < bs.calculate_call_delta spot s2 ((days : ℝ) / 365) iv) →
      |bs.calculate_call_delta spot s1 ((days : ℝ) / 365) iv - target| =
        |bs.calculate_call_delta spot s2 ((days : ℝ) / 365) iv - target| →
      find_call_strike_for_delta bs spot target days iv [s1, s2] =
        (s1, bs.calculate_call_delta spot s1 ((days : ℝ) / 365) iv)) ∧
    (s1 < get_atm_strike spot strikeInterval →
      s2 < get_atm_strike spot strikeInterval →
      ¬ (0.20 < |bs.calculate_put_delta spot s1 ((days : ℝ) / 365) iv|) →
      ¬ (0.20 < |bs.calculate_put_delta spot s2 ((days : ℝ) / 365) iv|) →
      |abs (bs.calculate_put_delta spot s1 ((days : ℝ) / 365) iv) - target| =
        |abs (bs.calculate_put_delta spot s2 ((days : ℝ) / 365) iv) - target| →
      find_put_strike_for_delta bs spot target days iv [s1, s2] =
        (s1, bs.calculate_put_delta spot s1 ((days : ℝ) / 365) iv)) := by
  constructor
  · intro h1 h2 hb1 hb2 htie
    have hfil : ([s1, s2] : List ℝ).filter (fun s =>
        decide (get_atm_strike spot strikeInterval < s)) = [s1, s2] := by
      simp only [List.filter_cons, List.filter_nil]
      rw [if_pos (by simpa using h1), if_pos (by simpa using h2)]
    have hscan : deltaScan
        (fun s => bs.calculate_call_delta spot s ((days : ℝ) / 365) iv) id
        target [s1, s2] none =
        some (s1, bs.calculate_call_delta spot s1 ((days : ℝ) / 365) iv,
          |bs.calculate_call_delta spot s1 ((days : ℝ) / 365) iv - target|) := by
      simp only [deltaScan, id]
      rw [if_neg hb1, if_neg hb2, if_neg (not_lt.2 (le_of_eq htie))]
    exact find_call_eq_scan bs spot target days iv [s1, s2] _
      (by rw [hfil]; exact hscan)
  · intro h1 h2 hb1 hb2 htie
    have hfil : ([s1, s2] : List ℝ).filter (fun s =>
        decide (s < get_atm_strike spot strikeInterval)) = [s1, s2] := by
      simp only [List.filter_cons, List.filter_nil]
      rw [if_pos (by simpa using h1), if_pos (by simpa using h2)]
    have hscan : deltaScan
        (fun s => bs.calculate_put_delta spot s ((days : ℝ) / 365) iv) abs
        target [s1, s2] none =
        some (s1, bs.calculate_put_delta spot s1 ((days : ℝ) / 365) iv,
          |abs (bs.calculate_put_delta spot s1 ((days : ℝ) / 365) iv) -
            target|) := by
      simp only [deltaScan]
      rw [if_neg hb1, if_neg hb2, if_neg (not_lt.2 (le_of_eq htie))]
    exact find_put_eq_scan bs spot target days iv [s1, s2] _
      (by rw [hfil]; exact hscan)

/-- Witness for C8: with `expiry_days = 0` every delta takes the
degenerate value 0, so any two strikes tie exactly; on `[25050, 25100]`
the call side keeps 25050 (first listed) and on `[24900, 24950]` the
put side keeps 24900 (first listed, the further-OTM put). -/
theorem C8_tie_break_witness :
    find_call_strike_for_delta futuresModeBS 25000 0.07 0 0.15
        [25050, 25100] =
      (25050,
        futuresModeBS.calculate_call_delta 25000 25050 (((0 : ℤ) : ℝ) / 365)
          0.15) ∧
    find_put_strike_for_delta futuresModeBS 25000 0.07 0 0.15
        [24900, 24950] =
      (24900,
        futuresModeBS.calculate_put_delta 25000 24900 (((0 : ℤ) : ℝ) / 365)
          0.15) := by
  have hdegc : ∀ s : ℝ, futuresModeBS.calculate_call_delta 25000 s
      (((0 : ℤ) : ℝ) / 365) 0.15 = 0 :=
    fun s => call_delta_degenerate _ _ _ _ _ (Or.inl (by norm_num))
  have hdegp : ∀ s : ℝ, futuresModeBS.calculate_put_delta 25000 s
      (((0 : ℤ) : ℝ) / 365) 0.15 = 0 :=
    fun s => put_delta_degenerate _ _ _ _ _ (Or.inl (by norm_num))
  have hatm : get_atm_strike 25000 strikeInterval = 25000 := by
    rw [get_atm_strike_eval 25000 500 (by norm_num)]
    norm_num
  have hc := (C8_tie_break futuresModeBS 25000 0.07 0 0.15 25050 25100).1
  have hp := (C8_tie_break futuresModeBS 25000 0.07 0 0.15 24900 24950).2
  exact ⟨hc (by rw [hatm]; norm_num) (by rw [hatm]; norm_num)
      (by rw [hdegc]; norm_num) (by rw [hdegc]; norm_num)
      (by rw [hdegc, hdegc]),
    hp (by rw [hatm]; norm_num) (by rw [hatm]; norm_num)
      (by rw [hdegp]; norm_num) (by rw [hdegp]; norm_num)
      (by rw [hdegp, hdegp])⟩

/-- Counterexample for C8 as stated: on the ascending call list
`[25050, 25100]` with `expiry_days = 0` both candidate deltas equal 0
(hence are exactly equidistant from the target 0.07), yet the selector
returns 25050 — the nearer-the-money strike — not the further
out-of-the-money 25100 the claim requires. -/
theorem C8_counterexample :
    futuresModeBS.calculate_call_delta 25000 25050 (((0 : ℤ) : ℝ) / 365)
        0.15 =
      futuresModeBS.calculate_call_delta 25000 25100 (((0 : ℤ) : ℝ) / 365)
        0.15 ∧
    find_call_strike_for_delta futuresModeBS 25000 0.07 0 0.15
        [25050, 25100] = (25050, 0) ∧
    (25050 : ℝ) ≠ 25100 := by
  have hdegc : ∀ s : ℝ, futuresModeBS.calculate_call_delta 25000 s
      (((0 : ℤ) : ℝ) / 365) 0.15 = 0 :=
    fun s => call_delta_degenerate _ _ _ _ _ (Or.inl (by norm_num))
  have hatm : get_atm_strike 25000 strikeInterval = 25000 := by
    rw [get_atm_strike_eval 25000 500 (by norm_num)]
    norm_num
  refine ⟨by rw [hdegc, hdegc], ?_, by norm_num⟩
  have hfil : ([25050, 25100] : List ℝ).filter (fun s =>
      decide (get_atm_strike 25000 strikeInterval < s)) = [25050, 25100] := by
    simp only [hatm, List.filter_cons, List.filter_nil, decide_eq_true_eq]
    norm_num
  have hscan : deltaScan
      (fun s => futuresModeBS.calculate_call_delta 25000 s
        (((0 : ℤ) : ℝ) / 365) 0.15) id 0.07 [25050, 25100] none =
      some (25050, 0, |(0 : ℝ) - 0.07|) := by
    simp only [deltaScan, id, hdegc]
    rw [if_neg (by norm_num), if_neg (by norm_num),
      if_neg (not_lt.2 le_rfl)]
  exact find_call_eq_scan futuresModeBS 25000 0.07 0 0.15 [25050, 25100] _
    (by rw [hfil]; exact hscan)

end NiftyStrangle
